import Mathlib

/-!
Verification development for the media-organizer pipeline
(scan → hash → plan → execute → rollback).

The definitions below are a shallow embedding of the Python sources:
`domain/rules.py`, `persistence/repos.py`, and the services
`scan_service.py`, `hash_service.py`, `planner_service.py`,
`executor_service.py`, `rollback_service.py`.

Modelling conventions:
- Paths are POSIX-style strings with "/" as separator; `os.path.join a b`
  is modelled for the case where `b` is relative, which is the only case
  arising in these services.
- The SQLite tables are modelled as Lean lists of records, one structure
  per table row; SQL `UPDATE ... WHERE` is a `List.map` that rewrites the
  matching rows, `INSERT` is an append, autoincrement ids are threaded as
  an explicit `next id` counter.
- `now_iso()` timestamps are modelled as an uninterpreted string supplied
  by the caller; they play no role in any verified property.
- Filesystem effects are explicit: the set of file paths present on disk
  is a `List String`, and fallible operations (stat, copy, hash, remove)
  are oracles supplied as function arguments, mirroring that their
  outcome is decided by the environment, not the program.
-/

namespace MediaOrg

/-! ## Path helpers (os.path, specialised to "/" separators) -/

/-- `os.path.join a b` for a relative `b` (the only use in the sources). -/
def pathJoin (a b : String) : String :=
  if a = "" then b else a ++ "/" ++ b

/-- Split a character list at every occurrence of `c`
(the semantics of `String.splitOn` for a one-character separator). -/
def splitChar (c : Char) : List Char → List (List Char)
  | [] => [[]]
  | x :: xs =>
    let r := splitChar c xs
    if x = c then [] :: r
    else
      match r with
      | [] => [[x]]
      | y :: ys => (x :: y) :: ys

/-- `s.split("/")` as a list of strings. -/
def strSplitSlash (s : String) : List String :=
  (splitChar '/' s.toList).map (fun cs => ⟨cs⟩)

/-- `"/".join parts` (Python `str.join` / Lean `String.intercalate`). -/
def strJoinSlash : List String → String
  | [] => ""
  | [x] => x
  | x :: xs => x ++ "/" ++ strJoinSlash xs

/-- `os.path.basename`: the component after the last "/". -/
def basename (s : String) : String :=
  (strSplitSlash s).getLastD ""

/-- `os.path.dirname`: everything before the last "/" (empty when there is
no separator; the root-only edge case `"/a"` does not arise because every
destination root used by the planner is a non-empty absolute path). -/
def dirname (s : String) : String :=
  let parts := strSplitSlash s
  if parts.length ≤ 1 then "" else strJoinSlash parts.dropLast

/-- `str.lower`, character by character. -/
def strLower (s : String) : String :=
  ⟨s.toList.map Char.toLower⟩

/-- `str.upper`, character by character. -/
def strUpper (s : String) : String :=
  ⟨s.toList.map Char.toUpper⟩

/-- Index of the last occurrence of `c` in `cs`, if any. -/
def lastIdxOf (c : Char) (cs : List Char) : Option Nat :=
  ((List.range cs.length).filter (fun i => decide (cs.get? i = some c))).getLast?

/-- `os.path.splitext`: split at the last dot after the last separator,
unless all characters between the separator and that dot are dots
(Python's leading-dot rule, so ".bashrc" has no extension). -/
def splitext (s : String) : String × String :=
  let cs := s.toList
  match lastIdxOf '.' cs with
  | none => (s, "")
  | some d =>
    let start := match lastIdxOf '/' cs with
      | none => 0
      | some i => i + 1
    if start < d ∧ ¬ (((cs.drop start).take (d - start)).all (fun ch => ch = '.')) then
      (⟨cs.take d⟩, ⟨cs.drop d⟩)
    else (s, "")

/-- `os.path.relpath p root`, specialised to the case
`p = root ++ "/" ++ rel` — the only case arising in the planner, which
always builds `p` by joining a path under `root`. -/
def relpathFrom (root p : String) : String :=
  p.drop (root.length + 1)

/-! ## domain/constants.py -/

def photoExts : List String :=
  [".jpg", ".jpeg", ".png", ".heic", ".heif", ".bmp", ".tif", ".tiff", ".gif", ".webp"]

def rawExts : List String :=
  [".cr2", ".cr3", ".nef", ".nrw", ".arw", ".raf", ".rw2", ".orf", ".pef", ".rwl", ".x3f", ".dng"]

def videoExts : List String :=
  [".mp4", ".mov", ".m4v", ".avi", ".wmv", ".webm", ".mkv", ".3gp", ".mts", ".m2ts",
   ".mpg", ".mpeg", ".vob", ".ts", ".flv"]

def excludedExts : List String :=
  [".xmp", ".aae", ".db", ".sqlite", ".xml", ".json", ".exe", ".msi", ".zip", ".rar", ".7z"]

/-! ## domain/rules.py -/

/-- `classify_media`: extension → PHOTO/VIDEO/RAW/OTHER. The `ext or ""`
guard is not needed because the model's extension is a plain `String`. -/
def classify_media (ext : String) : String :=
  let e := strLower ext
  if e ∈ rawExts then "RAW"
  else if e ∈ videoExts then "VIDEO"
  else if e ∈ photoExts then "PHOTO"
  else "OTHER"

/-- Model of `datetime.fromisoformat` followed by `strftime("%Y-%m-%d")`:
accepts strings that start with a `YYYY-MM-DD` digit/dash shape optionally
followed by `T`/space and a time part, and returns the first ten
characters.  Month/day range validation is abstracted away: every date
string produced inside this system comes from `datetime` formatting and is
range-valid. `none` models the `ValueError` the Python call raises. -/
def parseIsoDate (s : String) : Option String :=
  let cs := s.toList
  if 10 ≤ cs.length ∧
      ((cs.take 4).all Char.isDigit) ∧ cs.get? 4 = some '-' ∧
      (((cs.drop 5).take 2).all Char.isDigit) ∧ cs.get? 7 = some '-' ∧
      (((cs.drop 8).take 2).all Char.isDigit) ∧
      (cs.length = 10 ∨ cs.get? 10 = some 'T' ∨ cs.get? 10 = some ' ') then
    some ⟨cs.take 10⟩
  else none

/-- `choose_date(primary_dt, mtime_iso, primary_source)`.
Returns `some (yyyy_mm_dd, date_source)`; `none` models the exception that
escapes when the fallback `fromisoformat(mtime_iso)` itself fails
(a malformed mtime string), which the caller's outer handler turns into a
ScanError. -/
def choose_date (primary_dt : Option String) (mtime_iso : String)
    (primary_source : String) : Option (String × String) :=
  let fallback := (parseIsoDate mtime_iso).map (fun d => (d, "MTIME"))
  match primary_dt with
  | some p =>
    if p ≠ "" then
      match parseIsoDate p with
      | some d => some (d, primary_source)
      | none => fallback
    else fallback
  | none => fallback

/-- `dest_rel_path`: destination relative path for primary items. -/
def dest_rel_path (media_type date_yyyy_mm_dd filename : String) : String :=
  let yyyy := date_yyyy_mm_dd.take 4
  if media_type = "PHOTO" then
    pathJoin (pathJoin (pathJoin "Photos" yyyy) date_yyyy_mm_dd) filename
  else if media_type = "VIDEO" then
    pathJoin (pathJoin (pathJoin "Videos" yyyy) date_yyyy_mm_dd) filename
  else if media_type = "RAW" then
    pathJoin (pathJoin (pathJoin "RAW" yyyy) date_yyyy_mm_dd) filename
  else
    let ext := strUpper ⟨(splitext filename).2.toList.dropWhile (fun c => c = '.')⟩
    let extTag := if ext = "" then "NOEXT" else ext
    pathJoin (pathJoin "OtherByExt" extTag) filename

/-- `duplicates_rel_path`. -/
def duplicates_rel_path (run_id filename : String) : String :=
  pathJoin (pathJoin "Duplicates" run_id) filename

/-- Candidate file name tried by `resolve_collision` at counter value `n`
(`n = 0` is the unmodified file name). -/
def collisionCandidate (filename base ext : String) (n : Nat) : String :=
  if n = 0 then filename else base ++ " (" ++ toString n ++ ")" ++ ext

/-- The `while os.path.exists(...)` loop of `resolve_collision`, with the
set of file paths on disk made explicit.  The fuel `disk.length + 1`
matches the unbounded Python loop: candidate names for distinct counter
values are pairwise distinct strings, so among the first
`disk.length + 1` candidates at least one is free. -/
def resolveCollisionGo (disk : List String) (dest_folder base ext filename : String) :
    Nat → Nat → String × Nat
  | n, 0 => (collisionCandidate filename base ext n, n)
  | n, fuel + 1 =>
    let cand := collisionCandidate filename base ext n
    if pathJoin dest_folder cand ∈ disk then
      resolveCollisionGo disk dest_folder base ext filename (n + 1) fuel
    else (cand, n)

/-- `resolve_collision(dest_folder, filename)` from `domain/rules.py`,
probing the given on-disk path set.  Returns `(new_filename, suffix)`.
Note: directories created by the planner's `os.makedirs` are not in
`disk`; only file paths are modelled, matching what `os.path.exists` can
observe for the file-name candidates probed here. -/
def resolve_collision (disk : List String) (dest_folder filename : String) : String × Nat :=
  let be := splitext filename
  resolveCollisionGo disk dest_folder be.1 be.2 filename 0 (disk.length + 1)

/-! ## Data model (persistence/schema, one structure per table row) -/

/-- A row of the `runs` table.  Only the columns touched by the modelled
services are carried; the configuration-snapshot columns are written once
at creation and never read by the pipeline services verified here. -/
structure Run where
  run_id : String
  status : String
deriving Repr, DecidableEq

/-- The dictionary built per accepted file by `ScanService.scan` and
consumed by `FileRepo.upsert_files` (the VALUES tuple of the INSERT). -/
structure ScanRow where
  source_path : String
  source_root : String
  ext : String
  media_type : String
  file_size : Nat
  mtime : String
  exif_datetime : Option String
  chosen_date : String
  date_source : String
  sha256 : Option String
  is_hidden : Bool
  is_system : Bool
  is_link : Bool
  created_at : String
deriving Repr, DecidableEq

/-- A row of the `files` table. -/
structure FileRecord where
  file_id : Nat
  run_id : String
  source_path : String
  source_root : String
  ext : String
  media_type : String
  file_size : Nat
  mtime : String
  exif_datetime : Option String
  chosen_date : String
  date_source : String
  sha256 : Option String
  is_hidden : Bool
  is_system : Bool
  is_link : Bool
  created_at : String
deriving Repr, DecidableEq

/-- A row of the `hash_groups` table. -/
structure HashGroup where
  group_id : Nat
  run_id : String
  sha256 : String
  primary_file_id : Option Nat
  created_at : String
deriving Repr, DecidableEq

/-- A row of the `plan_items` table. -/
structure PlanItem where
  plan_item_id : Nat
  run_id : String
  file_id : Nat
  action : String
  dest_path : String
  dest_rel_path : String
  collision_resolved : Bool
  collision_suffix : Nat
  duplicate_group_id : Option Nat
  is_primary_in_group : Bool
  status : String
  started_at : Option String
  finished_at : Option String
  bytes_copied : Option Nat
  error_code : Option String
  error_message : Option String
deriving Repr, DecidableEq

/-- A row of the append-only `errors` table. -/
structure ErrorRecord where
  run_id : String
  plan_item_id : Option Nat
  phase : String
  code : Option String
  message : String
  source_path : Option String
  dest_path : Option String
  created_at : String
deriving Repr, DecidableEq

/-! ## persistence/repos.py -/

/-- The update clause of `FileRepo.upsert_files`' `ON CONFLICT ... DO
UPDATE SET`: exactly the descriptive columns are overwritten;
`sha256`, `created_at`, `source_root`, `file_id` are left untouched. -/
def applyScanUpdate (e : FileRecord) (r : ScanRow) : FileRecord :=
  { e with
    ext := r.ext
    media_type := r.media_type
    file_size := r.file_size
    mtime := r.mtime
    exif_datetime := r.exif_datetime
    chosen_date := r.chosen_date
    date_source := r.date_source
    is_hidden := r.is_hidden
    is_system := r.is_system
    is_link := r.is_link }

/-- A fresh `files` row inserted by `upsert_files` (rowid `fid`). -/
def mkFileRecord (fid : Nat) (run_id : String) (r : ScanRow) : FileRecord :=
  { file_id := fid
    run_id := run_id
    source_path := r.source_path
    source_root := r.source_root
    ext := r.ext
    media_type := r.media_type
    file_size := r.file_size
    mtime := r.mtime
    exif_datetime := r.exif_datetime
    chosen_date := r.chosen_date
    date_source := r.date_source
    sha256 := r.sha256
    is_hidden := r.is_hidden
    is_system := r.is_system
    is_link := r.is_link
    created_at := r.created_at }

/-- One `INSERT ... ON CONFLICT(run_id, source_path) DO UPDATE` statement:
update the row with the conflicting key if present, otherwise insert a new
row with the next rowid. -/
def upsertOne (run_id : String) (st : List FileRecord × Nat) (r : ScanRow) :
    List FileRecord × Nat :=
  let files := st.1
  let nextId := st.2
  if files.any (fun e => decide (e.run_id = run_id ∧ e.source_path = r.source_path)) then
    (files.map (fun e =>
       if e.run_id = run_id ∧ e.source_path = r.source_path then applyScanUpdate e r else e),
     nextId)
  else
    (files ++ [mkFileRecord nextId run_id r], nextId + 1)

/-- `FileRepo.upsert_files` (the `executemany` over a batch of rows). -/
def upsert_files (run_id : String) (rows : List ScanRow) (st : List FileRecord × Nat) :
    List FileRecord × Nat :=
  rows.foldl (upsertOne run_id) st

/-- `FileRepo.list_files_for_hashing`: `WHERE run_id=? AND sha256 IS NULL`. -/
def list_files_for_hashing (run_id : String) (files : List FileRecord) : List FileRecord :=
  files.filter (fun f => decide (f.run_id = run_id ∧ f.sha256 = none))

/-- `FileRepo.set_sha256`: `UPDATE files SET sha256=? WHERE file_id=?`. -/
def set_sha256 (file_id : Nat) (sha : String) (files : List FileRecord) : List FileRecord :=
  files.map (fun f => if f.file_id = file_id then { f with sha256 := some sha } else f)

/-- `HashGroupRepo.upsert_group`: return the existing group for
`(run_id, sha256)` or insert a new one with the next rowid. -/
def upsert_group (run_id sha : String) (t : String) (st : List HashGroup × Nat) :
    List HashGroup × Nat :=
  let groups := st.1
  let nextGid := st.2
  if groups.any (fun g => decide (g.run_id = run_id ∧ g.sha256 = sha)) then
    (groups, nextGid)
  else
    (groups ++ [{ group_id := nextGid, run_id := run_id, sha256 := sha,
                  primary_file_id := none, created_at := t }], nextGid + 1)

/-- SQL `UPDATE plan_items ... WHERE plan_item_id=?`: rewrite the matching
rows with `f`. -/
def updatePlan (plan_item_id : Nat) (f : PlanItem → PlanItem) (plan : List PlanItem) :
    List PlanItem :=
  plan.map (fun p => if p.plan_item_id = plan_item_id then f p else p)

/-- `PlanRepo.mark_copying`. -/
def mark_copying (plan_item_id : Nat) (t : String) (plan : List PlanItem) : List PlanItem :=
  updatePlan plan_item_id (fun p => { p with status := "COPYING", started_at := some t }) plan

/-- `PlanRepo.mark_verified`: sets the terminal status, records the bytes
copied and clears both error columns. -/
def mark_verified (plan_item_id : Nat) (bytes_copied : Nat) (t : String)
    (plan : List PlanItem) : List PlanItem :=
  updatePlan plan_item_id (fun p =>
    { p with status := "VERIFIED", bytes_copied := some bytes_copied,
             finished_at := some t, error_code := none, error_message := none }) plan

/-- `PlanRepo.mark_failed`. -/
def mark_failed (plan_item_id : Nat) (code msg : String) (t : String)
    (plan : List PlanItem) : List PlanItem :=
  updatePlan plan_item_id (fun p =>
    { p with status := "FAILED", finished_at := some t,
             error_code := some code, error_message := some msg }) plan

/-- `PlanRepo.clear_plan`: `DELETE FROM plan_items WHERE run_id=?`. -/
def clear_plan (run_id : String) (plan : List PlanItem) : List PlanItem :=
  plan.filter (fun p => decide (p.run_id ≠ run_id))

/-- The draft dictionary built per file by `PlannerService.build_plan`
and passed to `PlanRepo.insert_plan_items`. -/
structure PlanDraft where
  file_id : Nat
  action : String
  dest_path : String
  dest_rel_path : String
  collision_suffix : Nat
  duplicate_group_id : Option Nat
  is_primary_in_group : Bool
deriving Repr, DecidableEq

/-- `PlanRepo.insert_plan_items`: append one `PENDING` row per draft,
assigning consecutive rowids. -/
def insert_plan_items (run_id : String) (items : List PlanDraft)
    (st : List PlanItem × Nat) : List PlanItem × Nat :=
  items.foldl (fun st it =>
    (st.1 ++ [{ plan_item_id := st.2
                run_id := run_id
                file_id := it.file_id
                action := it.action
                dest_path := it.dest_path
                dest_rel_path := it.dest_rel_path
                collision_resolved := it.collision_suffix ≠ 0
                collision_suffix := it.collision_suffix
                duplicate_group_id := it.duplicate_group_id
                is_primary_in_group := it.is_primary_in_group
                status := "PENDING"
                started_at := none
                finished_at := none
                bytes_copied := none
                error_code := none
                error_message := none }], st.2 + 1)) st

/-- `PlanRepo.list_pending_for_execution`: the `plan_items ⋈ files` join
restricted to `status IN ('PENDING','COPYING','FAILED')` for the run.
The plan store is kept in `plan_item_id` order, which realises the
query's `ORDER BY plan_item_id`. -/
def list_pending_for_execution (run_id : String) (plan : List PlanItem)
    (files : List FileRecord) : List (PlanItem × FileRecord) :=
  (plan.filter (fun p => decide (p.run_id = run_id ∧
      (p.status = "PENDING" ∨ p.status = "COPYING" ∨ p.status = "FAILED")))).filterMap
    (fun p => (files.find? (fun f => decide (f.file_id = p.file_id))).map (fun f => (p, f)))

/-- `ErrorRepo.add`: append-only insert into `errors`. -/
def errorAdd (run_id phase message : String) (code : Option String)
    (source_path dest_path : Option String) (plan_item_id : Option Nat) (t : String)
    (errors : List ErrorRecord) : List ErrorRecord :=
  errors ++ [{ run_id := run_id, plan_item_id := plan_item_id, phase := phase,
               code := code, message := message, source_path := source_path,
               dest_path := dest_path, created_at := t }]

/-- `RunRepo.update_status` / the inline `UPDATE runs SET status=...`. -/
def setRunStatus (run_id status : String) (runs : List Run) : List Run :=
  runs.map (fun u => if u.run_id = run_id then { u with status := status } else u)

/-! ## services/executor_service.py -/

/-- Outcome of one body of the executor's `while True` attempt loop, as
decided by the environment:
`ok bytesCopied destFp` — `copy_stream` returned `bytesCopied` and
`sha256_file(dst)` recomputed the fingerprint `destFp`;
`err estr` — `copy_stream` or `sha256_file` raised an exception whose
`str(e)` is `estr` (the `Type: message` formatting of the stored message
is abstracted into this one string). -/
inductive AttemptOutcome where
  | ok (bytesCopied : Nat) (destFp : String)
  | err (estr : String)
deriving Repr, DecidableEq

/-- Terminal result of the attempt loop for one item; the `Nat` is the
value of the `attempt` counter when the loop exited. -/
inductive ExecOutcome where
  | verified (bytesCopied : Nat) (destFp : String) (attempts : Nat)
  | failed (code msg : String) (attempts : Nat)
deriving Repr, DecidableEq

/-- Python truthiness of `it.get("source_sha256")`: `None` and the empty
string are falsy. -/
def truthy : Option String → Bool
  | some e => e ≠ ""
  | none => false

/-- Error code / stored message computed by the `except` block from
`str(e)` (`SHA256_MISMATCH` is reclassified as a verify failure). -/
def failCodeMsg (estr : String) : String × String :=
  if estr = "SHA256_MISMATCH" then ("VERIFY_FAIL", "SHA256 mismatch after copy")
  else ("COPY_FAIL", estr)

/-- The terminal `mark FAILED` result of the attempt loop. -/
def failResult (estr : String) (attempt : Nat) : ExecOutcome :=
  let cm := failCodeMsg estr
  .failed cm.1 cm.2 attempt

/-- The executor's per-item `while True` loop.  `attempt` is the counter
value after the `attempt += 1` at the top of the body; the loop retries
while `error_policy == "RETRY_THEN_SKIP"` and `attempt <= retries`.
`fuel` bounds the recursion so that it is structural: the entry point
below passes `retries + 1 - attempt`, which is positive whenever the
retry condition holds, so the fuel-exhausted arm (which returns the same
no-retry result) is never taken. -/
def execLoopGo (expected : Option String) (oracle : Nat → AttemptOutcome)
    (error_policy : String) (retries : Nat) : Nat → Nat → ExecOutcome
  | fuel, attempt =>
    let step := fun (estr : String) =>
      if error_policy = "RETRY_THEN_SKIP" ∧ attempt ≤ retries then
        match fuel with
        | 0 => failResult estr attempt
        | fuel' + 1 => execLoopGo expected oracle error_policy retries fuel' (attempt + 1)
      else failResult estr attempt
    match oracle attempt with
    | .ok b fp =>
      if truthy expected ∧ expected ≠ some fp then step "SHA256_MISMATCH"
      else .verified b fp attempt
    | .err estr => step estr

/-- The attempt loop entered at counter value `attempt`. -/
def execLoop (expected : Option String) (oracle : Nat → AttemptOutcome)
    (error_policy : String) (retries : Nat) (attempt : Nat) : ExecOutcome :=
  execLoopGo expected oracle error_policy retries (retries + 1 - attempt) attempt

/-- Executor body for a single selected item: `mark_copying`, run the
attempt loop, then `mark_verified` or `mark_failed` plus one error-log row
(phase COPY for a copy failure, VERIFY for a fingerprint mismatch). -/
def executeItem (run_id : String) (p : PlanItem) (src dst : String)
    (expected : Option String) (oracle : Nat → AttemptOutcome)
    (error_policy : String) (retries : Nat) (t : String)
    (plan : List PlanItem) (errors : List ErrorRecord) :
    List PlanItem × List ErrorRecord :=
  let plan1 := mark_copying p.plan_item_id t plan
  match execLoop expected oracle error_policy retries 1 with
  | .verified b _ _ => (mark_verified p.plan_item_id b t plan1, errors)
  | .failed code msg _ =>
    (mark_failed p.plan_item_id code msg t plan1,
     errorAdd run_id (if code = "COPY_FAIL" then "COPY" else "VERIFY") msg (some code)
       (some src) (some dst) (some p.plan_item_id) t errors)

/-- `ExecutorService.execute`: iterate over the selected items (the rows
of `list_pending_for_execution`), polling the stop flag before each item.
`oracles` gives the attempt outcomes per plan-item id. -/
def executeGo (run_id : String) (oracles : Nat → Nat → AttemptOutcome)
    (error_policy : String) (retries : Nat) (stop : Nat → Bool) (t : String) :
    List (PlanItem × FileRecord) → Nat → List PlanItem × List ErrorRecord →
    List PlanItem × List ErrorRecord
  | [], _, st => st
  | (p, f) :: rest, i, st =>
    if stop i then st
    else
      let st1 := executeItem run_id p f.source_path p.dest_path f.sha256
        (oracles p.plan_item_id) error_policy retries t st.1 st.2
      executeGo run_id oracles error_policy retries stop t rest (i + 1) st1

/-- `ExecutorService.execute` over a selection of items. -/
def execute (run_id : String) (items : List (PlanItem × FileRecord))
    (oracles : Nat → Nat → AttemptOutcome) (error_policy : String) (retries : Nat)
    (stop : Nat → Bool) (t : String) (plan : List PlanItem)
    (errors : List ErrorRecord) : List PlanItem × List ErrorRecord :=
  executeGo run_id oracles error_policy retries stop t items 0 (plan, errors)

/-! ## services/planner_service.py -/

/-- `MIN(file_id) ... GROUP BY sha256` for one fingerprint of the run. -/
def minFileId (run_id : String) (files : List FileRecord) (sha : String) : Option Nat :=
  ((files.filter (fun f => decide (f.run_id = run_id ∧ f.sha256 = some sha))).map
    (fun f => f.file_id)).min?

/-- The planner's first pass: for every fingerprint of the run that has at
least one file, set the matching hash group's `primary_file_id` to the
group's minimal `file_id`. -/
def assignPrimaries (run_id : String) (files : List FileRecord)
    (groups : List HashGroup) : List HashGroup :=
  groups.map (fun g =>
    if g.run_id = run_id ∧
        (files.any (fun f => decide (f.run_id = run_id ∧ f.sha256 = some g.sha256))) then
      { g with primary_file_id := minFileId run_id files g.sha256 }
    else g)

/-- The `LEFT JOIN hash_groups` of the planner's second query for one file
row: a `NULL` fingerprint joins no group (SQL `NULL = NULL` is not true). -/
def joinGroup (groups : List HashGroup) (f : FileRecord) : Option HashGroup :=
  match f.sha256 with
  | none => none
  | some s => groups.find? (fun g => decide (g.run_id = f.run_id ∧ g.sha256 = s))

/-- The body of the planner's per-file loop: choose primary/duplicate
action and destination, then resolve name collisions for `COPY` items
against the `disk` path set.  `disk` is the state of the destination tree
at plan-build time; the loop never adds the items it has already planned
to it, because `resolve_collision` probes the filesystem and planning
copies nothing. -/
def planFile (run_id dest_root : String) (groups : List HashGroup)
    (disk : List String) (f : FileRecord) : PlanDraft :=
  let filename := basename f.source_path
  let group? := joinGroup groups f
  let is_primary : Bool :=
    match group? with
    | none => true
    | some g => decide (g.primary_file_id = some f.file_id)
  let base :=
    match group? with
    | some g =>
      if ¬ is_primary then
        let rel := duplicates_rel_path run_id filename
        { file_id := f.file_id, action := "COPY_TO_DUPLICATES",
          dest_path := pathJoin dest_root rel, dest_rel_path := rel,
          collision_suffix := 0, duplicate_group_id := some g.group_id,
          is_primary_in_group := is_primary : PlanDraft }
      else
        let rel := dest_rel_path f.media_type f.chosen_date filename
        { file_id := f.file_id, action := "COPY",
          dest_path := pathJoin dest_root rel, dest_rel_path := rel,
          collision_suffix := 0, duplicate_group_id := some g.group_id,
          is_primary_in_group := is_primary : PlanDraft }
    | none =>
      let rel := dest_rel_path f.media_type f.chosen_date filename
      { file_id := f.file_id, action := "COPY",
        dest_path := pathJoin dest_root rel, dest_rel_path := rel,
        collision_suffix := 0, duplicate_group_id := none,
        is_primary_in_group := is_primary : PlanDraft }
  if base.action = "COPY" then
    let folder := dirname base.dest_path
    let rc := resolve_collision disk folder (basename base.dest_path)
    if rc.2 ≠ 0 then
      { base with collision_suffix := rc.2,
                  dest_path := pathJoin folder rc.1,
                  dest_rel_path := relpathFrom dest_root (pathJoin folder rc.1) }
    else base
  else base

/-- `PlannerService.build_plan`: assign primaries, then build one draft
per file row of the run (rows are supplied in `file_id` order, realising
the query's `ORDER BY f.file_id`).  Returns the updated hash groups, the
drafts handed to `insert_plan_items`, and the collision count. -/
def build_plan (run_id dest_root : String) (files : List FileRecord)
    (groups : List HashGroup) (disk : List String) :
    List HashGroup × List PlanDraft × Nat :=
  let groups1 := assignPrimaries run_id files groups
  let rows := files.filter (fun f => decide (f.run_id = run_id))
  let items := rows.map (planFile run_id dest_root groups1 disk)
  (groups1, items, (items.filter (fun it => decide (it.collision_suffix ≠ 0))).length)

/-! ## services/hash_service.py -/

/-- `HashService.hash_all`.  `hashFn` is the `sha256_file` oracle
(`Except` models a raised per-file exception); results are applied to the
store one at a time on the coordinating thread, modelled here in
submission order — the claims proved below do not depend on the
completion order of the worker pool.  The stop flag is polled before each
result is consumed. -/
def hashAllGo (run_id : String) (hashFn : String → Except String String)
    (stop : Nat → Bool) (t : String) :
    List FileRecord → Nat →
    List FileRecord × (List HashGroup × Nat) × List ErrorRecord →
    List FileRecord × (List HashGroup × Nat) × List ErrorRecord
  | [], _, st => st
  | r :: rest, i, st =>
    if stop i then st
    else
      let st1 :=
        match hashFn r.source_path with
        | .ok h => (set_sha256 r.file_id h st.1, upsert_group run_id h t st.2.1, st.2.2)
        | .error estr =>
          (st.1, st.2.1,
           errorAdd run_id "HASH" estr none (some r.source_path) none none t st.2.2)
      hashAllGo run_id hashFn stop t rest (i + 1) st1

/-- `HashService.hash_all`: select the unfingerprinted rows of the run and
process them; with nothing to do (`total == 0`) it returns at once. -/
def hash_all (run_id : String) (hashFn : String → Except String String)
    (stop : Nat → Bool) (t : String) (files : List FileRecord)
    (groupSt : List HashGroup × Nat) (errors : List ErrorRecord) :
    List FileRecord × (List HashGroup × Nat) × List ErrorRecord :=
  let rows := list_files_for_hashing run_id files
  if rows.length = 0 then (files, groupSt, errors)
  else hashAllGo run_id hashFn stop t rows 0 (files, groupSt, errors)

/-! ## services/rollback_service.py -/

/-- One iteration of `RollbackService.rollback`'s sweep: delete the
item's destination if present; a failed `os.remove` (modelled by
`delFail`; the stored message abstracts the `Type: message` formatting)
leaves the file in place and appends a ROLLBACK error row instead of
halting. -/
def rollbackStep (run_id : String) (delFail : String → Bool) (t : String)
    (st : List String × List ErrorRecord) (it : PlanItem) :
    List String × List ErrorRecord :=
  if it.dest_path ∈ st.1 then
    if delFail it.dest_path then
      (st.1,
       errorAdd run_id "ROLLBACK" "OSError: simulated remove failure" none none
         (some it.dest_path) (some it.plan_item_id) t st.2)
    else ((st.1.filter (fun q => decide (q ≠ it.dest_path))), st.2)
  else st

/-- The sweep over all selected VERIFIED items. -/
def rollbackSweep (run_id : String) (delFail : String → Bool) (t : String) :
    List PlanItem → List String × List ErrorRecord → List String × List ErrorRecord
  | [], st => st
  | it :: rest, st =>
    rollbackSweep run_id delFail t rest (rollbackStep run_id delFail t st it)

/-- `RollbackService.rollback`: sweep the VERIFIED items of the run, then
unconditionally set the run's status to ROLLED_BACK.  The plan store is
returned untouched — the service issues no UPDATE on `plan_items`. -/
def rollback (run_id : String) (delFail : String → Bool) (t : String)
    (plan : List PlanItem) (runs : List Run) (disk : List String)
    (errors : List ErrorRecord) :
    List PlanItem × List Run × List String × List ErrorRecord :=
  let items := plan.filter (fun p => decide (p.run_id = run_id ∧ p.status = "VERIFIED"))
  let st := rollbackSweep run_id delFail t items (disk, errors)
  (plan, setRunStatus run_id "ROLLED_BACK" runs, st.1, st.2)

/-! ## services/scan_service.py -/

/-- Exceptions handled by the dedicated `except` arms around `os.stat`. -/
inductive StatErr where
  | notFound
  | permission
  | osErr
deriving Repr, DecidableEq

/-- Environment seen by the scanner for one path:
`stat` — `os.stat` result (`st_size`) or the raised exception;
`mtime` — `mtime_iso(path)`, whose failure (`.error`) escapes to the
outer per-file handler;
`exifDt` — `extract_exif_datetime` (total: it swallows every exception);
`videoDt` — `extract_video_created_datetime`, whose exception is caught
inline and replaced by `None`. -/
structure PathEnv where
  stat : Except StatErr Nat
  mtime : Except String String
  exifDt : Option String
  videoDt : Except String (Option String)
deriving Repr

/-- Scanner filter configuration. -/
structure ScanConfig where
  min_file_size : Nat
  include_photos : Bool
  include_videos : Bool
  include_raw : Bool
  include_other : Bool
deriving Repr, DecidableEq

/-- Per-file outcome of the scanner's loop body:
`skip` — the file is rejected by one of the dedicated handlers or filters
(skip callback only, no store effect);
`scanError estr` — an exception reached the outer per-file handler and is
recorded as a SCAN error;
`accept row` — the file record dictionary is appended to the batch. -/
inductive ScanStep where
  | skip
  | scanError (estr : String)
  | accept (row : ScanRow)
deriving Repr, DecidableEq

/-- The body of the scanner's `for path in iter_files(...)` loop for one
path (stop-flag polling and batching live in the fold below). -/
def scanFile (source_root : String) (cfg : ScanConfig) (env : String → PathEnv)
    (t : String) (p : String) : ScanStep :=
  match (env p).stat with
  | .error _ => .skip
  | .ok size =>
    if size < cfg.min_file_size then .skip
    else
      let ext := strLower (splitext p).2
      if ext ∈ excludedExts then .skip
      else
        let media_type := classify_media ext
        if media_type = "PHOTO" ∧ ¬ cfg.include_photos then .skip
        else if media_type = "VIDEO" ∧ ¬ cfg.include_videos then .skip
        else if media_type = "RAW" ∧ ¬ cfg.include_raw then .skip
        else if media_type = "OTHER" ∧ ¬ cfg.include_other then .skip
        else
          match (env p).mtime with
          | .error estr => .scanError estr
          | .ok mtime =>
            let exif_dt : Option String :=
              if media_type = "PHOTO" ∨ media_type = "RAW" then (env p).exifDt else none
            let chosen :=
              if media_type = "PHOTO" ∨ media_type = "RAW" then
                choose_date exif_dt mtime "TAKEN_EXIF"
              else if media_type = "VIDEO" then
                let video_dt := match (env p).videoDt with
                  | .ok v => v
                  | .error _ => none
                choose_date video_dt mtime "CREATED_META"
              else
                choose_date none mtime "PRIMARY"
            match chosen with
            | none => .scanError "ValueError: invalid isoformat string"
            | some cd =>
              .accept
                { source_path := p
                  source_root := source_root
                  ext := ext
                  media_type := media_type
                  file_size := size
                  mtime := mtime
                  exif_datetime := exif_dt
                  chosen_date := cd.1
                  date_source := cd.2
                  sha256 := none
                  is_hidden := false
                  is_system := false
                  is_link := false
                  created_at := t }

/-- Flush of the pending batch (`upsert_files` when `rows` is nonempty). -/
def scanFlush (run_id : String) (buffer : List ScanRow)
    (st : List FileRecord × Nat) : List FileRecord × Nat :=
  if buffer.length = 0 then st else upsert_files run_id buffer st

/-- The scanner's main loop: poll the stop flag, process the path, batch
accepted rows and flush every 500; on exit (end of walk or stop) flush the
remaining batch. -/
def scanGo (run_id source_root : String) (cfg : ScanConfig)
    (env : String → PathEnv) (stop : Nat → Bool) (t : String) :
    List String → Nat → List ScanRow → List FileRecord × Nat → List ErrorRecord →
    (List FileRecord × Nat) × List ErrorRecord
  | [], _, buffer, st, errors => (scanFlush run_id buffer st, errors)
  | p :: rest, i, buffer, st, errors =>
    if stop i then (scanFlush run_id buffer st, errors)
    else
      match scanFile source_root cfg env t p with
      | .skip => scanGo run_id source_root cfg env stop t rest (i + 1) buffer st errors
      | .scanError estr =>
        scanGo run_id source_root cfg env stop t rest (i + 1) buffer st
          (errorAdd run_id "SCAN" estr none (some p) none none t errors)
      | .accept row =>
        let buffer1 := buffer ++ [row]
        if 500 ≤ buffer1.length then
          scanGo run_id source_root cfg env stop t rest (i + 1) []
            (upsert_files run_id buffer1 st) errors
        else
          scanGo run_id source_root cfg env stop t rest (i + 1) buffer1 st errors

/-- `ScanService.scan` over the paths yielded by `iter_files`. -/
def scan (run_id source_root : String) (cfg : ScanConfig) (env : String → PathEnv)
    (stop : Nat → Bool) (t : String) (paths : List String)
    (st : List FileRecord × Nat) (errors : List ErrorRecord) :
    (List FileRecord × Nat) × List ErrorRecord :=
  scanGo run_id source_root cfg env stop t paths 0 [] st errors

/-! ## Derived predicates and auxiliary definitions used by the theorems -/

/-- Whether one body of the executor's attempt loop ends in the `except`
block: a raised copy/hash exception, or a successful copy whose recomputed
fingerprint mismatches a truthy stored fingerprint. -/
def attemptFails (expected : Option String) : AttemptOutcome → Bool
  | .ok _ fp => truthy expected && decide (expected ≠ some fp)
  | .err _ => true

/-- `str(e)` of the exception that ends a failing attempt: the raised
`RuntimeError("SHA256_MISMATCH")` for a completed copy whose recomputed
fingerprint mismatches, or the copy error's own string. -/
def failStrOf : AttemptOutcome → String
  | .ok _ _ => "SHA256_MISMATCH"
  | .err s => s

/-- Equality of a `files` row and a scan row on exactly the columns that
`upsert_files`' conflict clause overwrites. -/
def descrEq (e : FileRecord) (r : ScanRow) : Prop :=
  e.ext = r.ext ∧ e.media_type = r.media_type ∧ e.file_size = r.file_size ∧
  e.mtime = r.mtime ∧ e.exif_datetime = r.exif_datetime ∧
  e.chosen_date = r.chosen_date ∧ e.date_source = r.date_source ∧
  e.is_hidden = r.is_hidden ∧ e.is_system = r.is_system ∧ e.is_link = r.is_link

instance (e : FileRecord) (r : ScanRow) : Decidable (descrEq e r) := by
  unfold descrEq; infer_instance

/-- Two scan rows produced by scanning the same unchanged file in two
different scan passes: same source path and same stat/metadata-derived
descriptive fields; `source_root`, `sha256` and `created_at` are
unconstrained because the conflict clause never reads them. -/
def sameScan (r r' : ScanRow) : Prop :=
  r'.source_path = r.source_path ∧ r'.ext = r.ext ∧ r'.media_type = r.media_type ∧
  r'.file_size = r.file_size ∧ r'.mtime = r.mtime ∧
  r'.exif_datetime = r.exif_datetime ∧ r'.chosen_date = r.chosen_date ∧
  r'.date_source = r.date_source ∧ r'.is_hidden = r.is_hidden ∧
  r'.is_system = r.is_system ∧ r'.is_link = r.is_link

/-- Row lookup by primary key, `fun e => e.file_id == fid`. -/
def byId (fid : Nat) : FileRecord → Bool := fun e => e.file_id == fid

/-- Plan-row lookup by primary key. -/
def byPid (pid : Nat) : PlanItem → Bool := fun q => q.plan_item_id == pid

/-- The columns of a `files` row that `upsert_files`' conflict clause can
never change: primary key, conflict key, source root, fingerprint and
creation time. -/
def frozenEq (e e2 : FileRecord) : Prop :=
  e2.file_id = e.file_id ∧ e2.run_id = e.run_id ∧ e2.source_path = e.source_path ∧
  e2.source_root = e.source_root ∧ e2.sha256 = e.sha256 ∧ e2.created_at = e.created_at

instance (e e2 : FileRecord) : Decidable (frozenEq e e2) := by
  unfold frozenEq; infer_instance

/-- The operations through which `PlanRepo` ever writes the `plan_items`
table (state = rows plus the autoincrement counter). -/
inductive PlanOp where
  | insert (run_id : String) (items : List PlanDraft)
  | copying (plan_item_id : Nat) (t : String)
  | verified (plan_item_id : Nat) (bytes : Nat) (t : String)
  | failed (plan_item_id : Nat) (code msg t : String)
  | clear (run_id : String)

/-- Apply one `PlanRepo` write. -/
def applyPlanOp (st : List PlanItem × Nat) : PlanOp → List PlanItem × Nat
  | .insert r items => insert_plan_items r items st
  | .copying id t => (mark_copying id t st.1, st.2)
  | .verified id b t => (mark_verified id b t st.1, st.2)
  | .failed id c m t => (mark_failed id c m t st.1, st.2)
  | .clear r => (clear_plan r st.1, st.2)

/-- A `plan_items` state reachable from the empty table. -/
def runPlanOps (ops : List PlanOp) : List PlanItem × Nat :=
  ops.foldl applyPlanOp ([], 0)

/-! ## Concrete fixtures for witnesses and counterexamples -/

/-- A sample scanned photo record. -/
def sampleFile (i : Nat) (run sp : String) (sha : Option String) : FileRecord :=
  { file_id := i, run_id := run, source_path := sp, source_root := "/src",
    ext := ".jpg", media_type := "PHOTO", file_size := 20480,
    mtime := "2020-01-02T00:00:00", exif_datetime := none,
    chosen_date := "2020-01-02", date_source := "MTIME", sha256 := sha,
    is_hidden := false, is_system := false, is_link := false, created_at := "t0" }

/-- A sample pending plan item. -/
def sampleItem (i : Nat) (run : String) (fid : Nat) (dst status : String) : PlanItem :=
  { plan_item_id := i, run_id := run, file_id := fid, action := "COPY",
    dest_path := dst, dest_rel_path := relpathFrom "/dest" dst,
    collision_resolved := false, collision_suffix := 0,
    duplicate_group_id := none, is_primary_in_group := true, status := status,
    started_at := none, finished_at := none, bytes_copied := none,
    error_code := none, error_message := none }

/-- A sample hash group. -/
def sampleGroup (g : Nat) (run sha : String) : HashGroup :=
  { group_id := g, run_id := run, sha256 := sha, primary_file_id := none,
    created_at := "t0" }

/-- The invariant of claim C10 over a `plan_items` state. -/
def verifiedClean (plan : List PlanItem) : Prop :=
  ∀ p ∈ plan, p.status = "VERIFIED" → p.error_code = none ∧ p.error_message = none

/-- A sample planner draft. -/
def sampleDraft : PlanDraft :=
  { file_id := 1, action := "COPY", dest_path := "/dest/Photos/2020/2020-01-02/a.jpg",
    dest_rel_path := "Photos/2020/2020-01-02/a.jpg", collision_suffix := 0,
    duplicate_group_id := none, is_primary_in_group := true }

/-- A sample scan row as built by the scanner for an accepted photo. -/
def sampleRow (sp : String) (sz : Nat) (created : String) : ScanRow :=
  { source_path := sp, source_root := "/src", ext := ".jpg",
    media_type := "PHOTO", file_size := sz, mtime := "2020-01-02T00:00:00",
    exif_datetime := none, chosen_date := "2020-01-02", date_source := "MTIME",
    sha256 := none, is_hidden := false, is_system := false, is_link := false,
    created_at := created }

def c10Ops : List PlanOp :=
  [.insert "r1" [sampleDraft], .copying 0 "t1", .failed 0 "COPY_FAIL" "boom" "t2",
   .verified 0 9 "t3"]

def c10Item : PlanItem :=
  { plan_item_id := 0, run_id := "r1", file_id := 1, action := "COPY",
    dest_path := "/dest/Photos/2020/2020-01-02/a.jpg",
    dest_rel_path := "Photos/2020/2020-01-02/a.jpg",
    collision_resolved := false, collision_suffix := 0,
    duplicate_group_id := none, is_primary_in_group := true,
    status := "VERIFIED", started_at := some "t1", finished_at := some "t3",
    bytes_copied := some 9, error_code := none, error_message := none }

def c6Item : PlanItem := sampleItem 1 "r1" 1 "/dest/Photos/2020/2020-01-02/a.jpg" "VERIFIED"


/-! ## Shared lemmas about the repository operations -/

theorem mem_updatePlan {plan : List PlanItem} {id : Nat} {f : PlanItem → PlanItem}
    {q : PlanItem} (hq : q ∈ updatePlan id f plan) :
    ∃ p ∈ plan, q = if p.plan_item_id = id then f p else p := by
  rcases List.mem_map.mp hq with ⟨p, hp, hpq⟩
  exact ⟨p, hp, hpq.symm⟩

theorem mem_insert_plan_items {r : String} {items : List PlanDraft}
    {st : List PlanItem × Nat} {q : PlanItem}
    (hq : q ∈ (insert_plan_items r items st).1) :
    q ∈ st.1 ∨ q.status = "PENDING" := by
  induction items generalizing st with
  | nil => exact Or.inl hq
  | cons it rest ih =>
    have hstep : insert_plan_items r (it :: rest) st =
        insert_plan_items r rest
          (st.1 ++ [{ plan_item_id := st.2
                      run_id := r
                      file_id := it.file_id
                      action := it.action
                      dest_path := it.dest_path
                      dest_rel_path := it.dest_rel_path
                      collision_resolved := it.collision_suffix ≠ 0
                      collision_suffix := it.collision_suffix
                      duplicate_group_id := it.duplicate_group_id
                      is_primary_in_group := it.is_primary_in_group
                      status := "PENDING"
                      started_at := none
                      finished_at := none
                      bytes_copied := none
                      error_code := none
                      error_message := none }], st.2 + 1) := rfl
    rw [hstep] at hq
    rcases ih hq with h | h
    · rcases List.mem_append.mp h with h1 | h1
      · exact Or.inl h1
      · right
        simp only [List.mem_singleton] at h1
        rw [h1]
    · exact Or.inr h

theorem verifiedClean_applyPlanOp {st : List PlanItem × Nat}
    (h : verifiedClean st.1) (op : PlanOp) : verifiedClean (applyPlanOp st op).1 := by
  cases op with
  | insert r items =>
    intro p hp hs
    rcases mem_insert_plan_items hp with hmem | hpend
    · exact h p hmem hs
    · rw [hpend] at hs; exact absurd hs (by decide)
  | copying id t =>
    intro p hp hs
    rcases mem_updatePlan hp with ⟨q, hq, hpq⟩
    by_cases hid : q.plan_item_id = id
    · rw [hpq, if_pos hid] at hs; simp at hs
    · rw [hpq, if_neg hid] at hs ⊢; exact h q hq hs
  | verified id b t =>
    intro p hp hs
    rcases mem_updatePlan hp with ⟨q, hq, hpq⟩
    by_cases hid : q.plan_item_id = id
    · rw [hpq, if_pos hid]; exact ⟨rfl, rfl⟩
    · rw [hpq, if_neg hid] at hs ⊢; exact h q hq hs
  | failed id c m t =>
    intro p hp hs
    rcases mem_updatePlan hp with ⟨q, hq, hpq⟩
    by_cases hid : q.plan_item_id = id
    · rw [hpq, if_pos hid] at hs; simp at hs
    · rw [hpq, if_neg hid] at hs ⊢; exact h q hq hs
  | clear r =>
    intro p hp hs
    exact h p (List.mem_of_mem_filter hp) hs

theorem verifiedClean_foldl (ops : List PlanOp) :
    ∀ st : List PlanItem × Nat, verifiedClean st.1 →
      verifiedClean (ops.foldl applyPlanOp st).1 := by
  induction ops with
  | nil => intro st h; exact h
  | cons op rest ih =>
    intro st h
    exact ih (applyPlanOp st op) (verifiedClean_applyPlanOp h op)

/-! ## Claim C10 -/

/-- C10: in every `plan_items` state reachable through the `PlanRepo`
write operations from the empty table, a row whose status is VERIFIED has
`error_code = NULL` and `error_message = NULL`: `mark_verified` clears
both error columns, and every other write leaves the row in a
non-VERIFIED status. -/
theorem verified_items_carry_no_error (ops : List PlanOp) :
    ∀ p ∈ (runPlanOps ops).1, p.status = "VERIFIED" →
      p.error_code = none ∧ p.error_message = none := by
  have h0 : verifiedClean ([] : List PlanItem) := by
    intro p hp; cases hp
  exact verifiedClean_foldl ops ([], 0) h0

theorem verified_items_carry_no_error_witness :
    (c10Item ∈ (runPlanOps c10Ops).1 ∧ c10Item.status = "VERIFIED") ∧
      c10Item.error_code = none ∧ c10Item.error_message = none := by
  have hlist : (runPlanOps c10Ops).1 = [c10Item] := by decide
  have hmem : c10Item ∈ (runPlanOps c10Ops).1 := by
    rw [hlist]; exact List.mem_singleton.mpr rfl
  exact ⟨⟨hmem, by decide⟩,
    verified_items_carry_no_error c10Ops c10Item hmem (by decide)⟩

/-! ## Claim C6: rollback -/

theorem rollbackStep_errors_append (run_id : String) (delFail : String → Bool)
    (t : String) (st : List String × List ErrorRecord) (it : PlanItem) :
    ∃ tail, (rollbackStep run_id delFail t st it).2 = st.2 ++ tail := by
  unfold rollbackStep
  by_cases hmem : it.dest_path ∈ st.1
  · by_cases hfail : delFail it.dest_path
    · refine ⟨[{ run_id := run_id, plan_item_id := some it.plan_item_id,
                 phase := "ROLLBACK", code := none,
                 message := "OSError: simulated remove failure", source_path := none,
                 dest_path := some it.dest_path, created_at := t }], ?_⟩
      rw [if_pos hmem, if_pos hfail]
      rfl
    · refine ⟨[], ?_⟩
      rw [if_pos hmem, if_neg hfail]
      simp
  · refine ⟨[], ?_⟩
    rw [if_neg hmem]
    simp

theorem rollbackStep_deletes_only_its_path (run_id : String) (delFail : String → Bool)
    (t : String) (st : List String × List ErrorRecord) (it : PlanItem) (q : String)
    (hq : q ∈ st.1) (hout : q ∉ (rollbackStep run_id delFail t st it).1) :
    q = it.dest_path := by
  unfold rollbackStep at hout
  by_cases hmem : it.dest_path ∈ st.1
  · rw [if_pos hmem] at hout
    by_cases hfail : delFail it.dest_path
    · rw [if_pos hfail] at hout
      exact absurd hq hout
    · rw [if_neg hfail] at hout
      by_contra hne
      refine hout ?_
      rw [List.mem_filter]
      exact ⟨hq, by simpa using hne⟩
  · rw [if_neg hmem] at hout
    exact absurd hq hout

theorem rollbackStep_keeps_failing_path (run_id : String) (delFail : String → Bool)
    (t : String) (st : List String × List ErrorRecord) (it : PlanItem) (q : String)
    (hdf : delFail q = true) (hq : q ∈ st.1) :
    q ∈ (rollbackStep run_id delFail t st it).1 := by
  unfold rollbackStep
  by_cases hmem : it.dest_path ∈ st.1
  · rw [if_pos hmem]
    by_cases hfail : delFail it.dest_path
    · rw [if_pos hfail]; exact hq
    · rw [if_neg hfail]
      rw [List.mem_filter]
      refine ⟨hq, ?_⟩
      have hne : q ≠ it.dest_path := by
        intro he; rw [he] at hdf; exact hfail hdf
      simpa using hne
  · rw [if_neg hmem]; exact hq

theorem rollbackStep_logs_failure (run_id : String) (delFail : String → Bool)
    (t : String) (st : List String × List ErrorRecord) (it : PlanItem)
    (hmem : it.dest_path ∈ st.1) (hdf : delFail it.dest_path = true) :
    { run_id := run_id, plan_item_id := some it.plan_item_id, phase := "ROLLBACK",
      code := none, message := "OSError: simulated remove failure",
      source_path := none, dest_path := some it.dest_path,
      created_at := t : ErrorRecord } ∈ (rollbackStep run_id delFail t st it).2 := by
  unfold rollbackStep
  rw [if_pos hmem, if_pos hdf]
  simp [errorAdd]

theorem rollbackSweep_errors_append (run_id : String) (delFail : String → Bool)
    (t : String) (items : List PlanItem) :
    ∀ st : List String × List ErrorRecord,
      ∃ tail, (rollbackSweep run_id delFail t items st).2 = st.2 ++ tail := by
  induction items with
  | nil => intro st; exact ⟨[], by simp [rollbackSweep]⟩
  | cons it rest ih =>
    intro st
    rcases rollbackStep_errors_append run_id delFail t st it with ⟨t1, ht1⟩
    rcases ih (rollbackStep run_id delFail t st it) with ⟨t2, ht2⟩
    refine ⟨t1 ++ t2, ?_⟩
    show (rollbackSweep run_id delFail t rest (rollbackStep run_id delFail t st it)).2 = _
    rw [ht2, ht1, List.append_assoc]

theorem rollbackSweep_deletes_only_items (run_id : String) (delFail : String → Bool)
    (t : String) (items : List PlanItem) :
    ∀ st : List String × List ErrorRecord, ∀ q, q ∈ st.1 →
      q ∉ (rollbackSweep run_id delFail t items st).1 →
      ∃ it ∈ items, it.dest_path = q := by
  induction items with
  | nil => intro st q hq hout; exact absurd hq hout
  | cons it rest ih =>
    intro st q hq hout
    have hout2 : q ∉ (rollbackSweep run_id delFail t rest
        (rollbackStep run_id delFail t st it)).1 := hout
    by_cases hq1 : q ∈ (rollbackStep run_id delFail t st it).1
    · rcases ih _ q hq1 hout2 with ⟨it2, h2, h3⟩
      exact ⟨it2, List.mem_cons_of_mem _ h2, h3⟩
    · have := rollbackStep_deletes_only_its_path run_id delFail t st it q hq hq1
      exact ⟨it, List.mem_cons_self it rest, this.symm⟩

theorem rollbackSweep_errors_mono (run_id : String) (delFail : String → Bool)
    (t : String) (items : List PlanItem) :
    ∀ st : List String × List ErrorRecord, ∀ e ∈ st.2,
      e ∈ (rollbackSweep run_id delFail t items st).2 := by
  intro st e he
  rcases rollbackSweep_errors_append run_id delFail t items st with ⟨tl, htl⟩
  rw [htl]
  exact List.mem_append_left _ he

theorem rollbackSweep_logs_failure (run_id : String) (delFail : String → Bool)
    (t : String) (items : List PlanItem) :
    ∀ st : List String × List ErrorRecord, ∀ it ∈ items,
      it.dest_path ∈ st.1 → delFail it.dest_path = true →
      ∃ e ∈ (rollbackSweep run_id delFail t items st).2,
        e.phase = "ROLLBACK" ∧ e.dest_path = some it.dest_path ∧
        e.plan_item_id = some it.plan_item_id := by
  induction items with
  | nil => intro st it hit; cases hit
  | cons hd rest ih =>
    intro st it hit hmem hdf
    rcases List.mem_cons.mp hit with heq | htail
    · subst heq
      refine ⟨{ run_id := run_id, plan_item_id := some it.plan_item_id,
                phase := "ROLLBACK", code := none,
                message := "OSError: simulated remove failure", source_path := none,
                dest_path := some it.dest_path, created_at := t }, ?_, rfl, rfl, rfl⟩
      exact rollbackSweep_errors_mono run_id delFail t rest _ _
        (rollbackStep_logs_failure run_id delFail t st it hmem hdf)
    · exact ih (rollbackStep run_id delFail t st hd) it htail
        (rollbackStep_keeps_failing_path run_id delFail t st hd it.dest_path hdf hmem) hdf

/-- C6: after `RollbackService.rollback`, (1) the `plan_items` rows are
untouched — in particular no item's status changes; (2) every row of the
run in `runs` is ROLLED_BACK, unconditionally — the sweep's outcome never
reaches the final UPDATE; (3) a path removed from disk is the destination
of a VERIFIED item of the run — only VERIFIED items' destinations are
deleted; (4) a VERIFIED item whose deletion fails is recorded as a
ROLLBACK error row without halting the sweep; (5) the error log is
append-only. -/
theorem rollback_spec (run_id : String) (delFail : String → Bool) (t : String)
    (plan : List PlanItem) (runs : List Run) (disk : List String)
    (errors : List ErrorRecord) :
    (rollback run_id delFail t plan runs disk errors).1 = plan ∧
    (∀ u ∈ (rollback run_id delFail t plan runs disk errors).2.1,
       u.run_id = run_id → u.status = "ROLLED_BACK") ∧
    (∀ q, q ∈ disk → q ∉ (rollback run_id delFail t plan runs disk errors).2.2.1 →
       ∃ it ∈ plan, it.run_id = run_id ∧ it.status = "VERIFIED" ∧ it.dest_path = q) ∧
    (∀ it ∈ plan, it.run_id = run_id → it.status = "VERIFIED" →
       it.dest_path ∈ disk → delFail it.dest_path = true →
       ∃ e ∈ (rollback run_id delFail t plan runs disk errors).2.2.2,
         e.phase = "ROLLBACK" ∧ e.dest_path = some it.dest_path ∧
         e.plan_item_id = some it.plan_item_id) ∧
    (∃ tail, (rollback run_id delFail t plan runs disk errors).2.2.2 = errors ++ tail) := by
  refine ⟨rfl, ?_, ?_, ?_, ?_⟩
  · intro u hu hr
    rcases List.mem_map.mp hu with ⟨u0, hu0, hu0e⟩
    by_cases h0 : u0.run_id = run_id
    · rw [← hu0e, if_pos h0]
    · rw [← hu0e, if_neg h0] at hr ⊢
      exact absurd hr h0
  · intro q hq hout
    rcases rollbackSweep_deletes_only_items run_id delFail t
      (plan.filter (fun p => decide (p.run_id = run_id ∧ p.status = "VERIFIED")))
      (disk, errors) q hq hout with ⟨it, hit, hdp⟩
    rcases List.mem_filter.mp hit with ⟨hmem, hcond⟩
    have hc := of_decide_eq_true hcond
    exact ⟨it, hmem, hc.1, hc.2, hdp⟩
  · intro it hit hrun hst hmem hdf
    refine rollbackSweep_logs_failure run_id delFail t _ (disk, errors) it ?_ hmem hdf
    rw [List.mem_filter]
    exact ⟨hit, by simp [hrun, hst]⟩
  · exact rollbackSweep_errors_append run_id delFail t _ (disk, errors)

theorem rollback_spec_witness :
    (c6Item ∈ [c6Item] ∧ c6Item.run_id = "r1" ∧ c6Item.status = "VERIFIED" ∧
      c6Item.dest_path ∈ ["/dest/Photos/2020/2020-01-02/a.jpg"] ∧
      (fun _ : String => true) c6Item.dest_path = true) ∧
    (∃ e ∈ (rollback "r1" (fun _ => true) "t1" [c6Item]
        [{ run_id := "r1", status := "RUNNING" }]
        ["/dest/Photos/2020/2020-01-02/a.jpg"] []).2.2.2,
      e.phase = "ROLLBACK" ∧ e.dest_path = some c6Item.dest_path ∧
      e.plan_item_id = some c6Item.plan_item_id) :=
  ⟨⟨by decide, by decide, by decide, by decide, rfl⟩,
   (rollback_spec "r1" (fun _ => true) "t1" [c6Item]
      [{ run_id := "r1", status := "RUNNING" }]
      ["/dest/Photos/2020/2020-01-02/a.jpg"] []).2.2.2.1 c6Item (by decide)
      (by decide) (by decide) (by decide) rfl⟩

/-! ## Claim C8: hash_all -/

theorem find?_map_invariant {α : Type} (p : α → Bool) (f : α → α)
    (hp : ∀ x, p (f x) = p x) (hfix : ∀ x, p x = true → f x = x) :
    ∀ l : List α, (l.map f).find? p = l.find? p := by
  intro l
  induction l with
  | nil => rfl
  | cons x xs ih =>
    simp only [List.map_cons, List.find?]
    rw [hp x]
    cases hx : p x with
    | true => rw [hfix x hx]
    | false => exact ih

theorem set_sha256_find_other (fid fid' : Nat) (h : String) (files : List FileRecord)
    (hne : fid ≠ fid') :
    (set_sha256 fid' h files).find? (byId fid) = files.find? (byId fid) := by
  refine find?_map_invariant (byId fid) _ ?_ ?_ files
  · intro x
    by_cases hx : x.file_id = fid' <;> simp [byId, hx]
  · intro x hpx
    have hxf : x.file_id = fid := by simpa [byId] using hpx
    have : ¬ x.file_id = fid' := by rw [hxf]; exact hne
    simp [this]

theorem set_sha256_find_self (fid : Nat) (h : String) (files : List FileRecord)
    (e : FileRecord) (hfind : files.find? (byId fid) = some e) :
    (set_sha256 fid h files).find? (byId fid) = some { e with sha256 := some h } := by
  induction files with
  | nil => simp [List.find?] at hfind
  | cons x xs ih =>
    rw [List.find?] at hfind
    show ((x :: xs).map _).find? (byId fid) = _
    simp only [List.map_cons, List.find?]
    cases hx : byId fid x with
    | true =>
      rw [hx] at hfind
      have hex : x = e := by simpa using hfind
      have hxf : x.file_id = fid := by simpa [byId] using hx
      rw [if_pos hxf]
      have hb : byId fid { x with sha256 := some h } = true := by
        simpa [byId] using hxf
      rw [hb, hex]
    | false =>
      rw [hx] at hfind
      have hxf : ¬ x.file_id = fid := by simpa [byId] using hx
      rw [if_neg hxf, hx]
      exact ih hfind

theorem set_sha256_length (fid : Nat) (h : String) (files : List FileRecord) :
    (set_sha256 fid h files).length = files.length := by
  simp [set_sha256]

theorem upsert_group_creates (run_id sha t : String) (st : List HashGroup × Nat) :
    ∃ g ∈ (upsert_group run_id sha t st).1, g.run_id = run_id ∧ g.sha256 = sha := by
  unfold upsert_group
  by_cases hc : st.1.any (fun g => decide (g.run_id = run_id ∧ g.sha256 = sha))
  · rw [if_pos hc]
    rcases List.any_eq_true.mp hc with ⟨g, hg, hgp⟩
    exact ⟨g, hg, of_decide_eq_true hgp⟩
  · rw [if_neg hc]
    exact ⟨_, List.mem_append_right _ (List.mem_singleton.mpr rfl), rfl, rfl⟩

theorem upsert_group_mono (run_id sha t : String) (st : List HashGroup × Nat)
    (g : HashGroup) (hg : g ∈ st.1) : g ∈ (upsert_group run_id sha t st).1 := by
  unfold upsert_group
  by_cases hc : st.1.any (fun g => decide (g.run_id = run_id ∧ g.sha256 = sha))
  · rw [if_pos hc]; exact hg
  · rw [if_neg hc]; exact List.mem_append_left _ hg

theorem hashAllGo_groups_mono (run_id : String) (hashFn : String → Except String String)
    (stop : Nat → Bool) (t : String) (hstop : ∀ n, stop n = false) :
    ∀ (rows : List FileRecord) (i : Nat)
      (st : List FileRecord × (List HashGroup × Nat) × List ErrorRecord)
      (g : HashGroup), g ∈ st.2.1.1 →
      g ∈ (hashAllGo run_id hashFn stop t rows i st).2.1.1 := by
  intro rows
  induction rows with
  | nil => intro i st g hg; exact hg
  | cons rf rest ih =>
    intro i st g hg
    rw [hashAllGo, if_neg (by simp [hstop])]
    cases hcase : hashFn rf.source_path with
    | ok h => exact ih (i + 1) _ g (by simp only [hcase]; exact upsert_group_mono run_id h t st.2.1 g hg)
    | error e => exact ih (i + 1) _ g (by simp only [hcase]; exact hg)

theorem hashAllGo_find_preserve (run_id : String) (hashFn : String → Except String String)
    (stop : Nat → Bool) (t : String) (hstop : ∀ n, stop n = false) :
    ∀ (rows : List FileRecord) (i : Nat)
      (st : List FileRecord × (List HashGroup × Nat) × List ErrorRecord)
      (fid : Nat), fid ∉ rows.map FileRecord.file_id →
      (hashAllGo run_id hashFn stop t rows i st).1.find? (byId fid) =
        st.1.find? (byId fid) := by
  intro rows
  induction rows with
  | nil => intro i st fid _; rfl
  | cons rf rest ih =>
    intro i st fid hfid
    have hne : fid ≠ rf.file_id := by
      intro he; exact hfid (by rw [he]; exact List.mem_map_of_mem _ (List.mem_cons_self rf rest))
    have hrest : fid ∉ rest.map FileRecord.file_id := by
      intro hmem; exact hfid (List.mem_cons_of_mem _ hmem)
    rw [hashAllGo, if_neg (by simp [hstop])]
    cases hcase : hashFn rf.source_path with
    | ok h =>
      rw [ih (i + 1) _ fid hrest]
      simp only [hcase]
      exact set_sha256_find_other fid rf.file_id h st.1 hne
    | error e =>
      rw [ih (i + 1) _ fid hrest]

theorem hashAllGo_length (run_id : String) (hashFn : String → Except String String)
    (stop : Nat → Bool) (t : String) (hstop : ∀ n, stop n = false) :
    ∀ (rows : List FileRecord) (i : Nat)
      (st : List FileRecord × (List HashGroup × Nat) × List ErrorRecord),
      (hashAllGo run_id hashFn stop t rows i st).1.length = st.1.length := by
  intro rows
  induction rows with
  | nil => intro i st; rfl
  | cons rf rest ih =>
    intro i st
    rw [hashAllGo, if_neg (by simp [hstop])]
    cases hcase : hashFn rf.source_path with
    | ok h =>
      rw [ih (i + 1) _]
      simp only [hcase]
      exact set_sha256_length rf.file_id h st.1
    | error e =>
      rw [ih (i + 1) _]

theorem hashAllGo_processes (run_id : String) (hashFn : String → Except String String)
    (stop : Nat → Bool) (t : String) (hstop : ∀ n, stop n = false) :
    ∀ (rows : List FileRecord), (rows.map FileRecord.file_id).Nodup →
      ∀ (i : Nat) (st : List FileRecord × (List HashGroup × Nat) × List ErrorRecord)
        (rf : FileRecord), rf ∈ rows → ∀ h, hashFn rf.source_path = .ok h →
        st.1.find? (byId rf.file_id) = some rf →
        (hashAllGo run_id hashFn stop t rows i st).1.find? (byId rf.file_id) =
          some { rf with sha256 := some h } ∧
        ∃ g ∈ (hashAllGo run_id hashFn stop t rows i st).2.1.1,
          g.run_id = run_id ∧ g.sha256 = h := by
  intro rows
  induction rows with
  | nil => intro _ i st rf hrf; cases hrf
  | cons x rest ih =>
    intro hnd i st rf hrf h hok hfind
    rw [List.map_cons, List.nodup_cons] at hnd
    rcases hnd with ⟨hxnotin, hndrest⟩
    rw [hashAllGo, if_neg (by simp [hstop])]
    rcases List.mem_cons.mp hrf with heq | htail
    · subst heq
      constructor
      · rw [hashAllGo_find_preserve run_id hashFn stop t hstop rest (i + 1) _ rf.file_id hxnotin]
        simp only [hok]
        exact set_sha256_find_self rf.file_id h st.1 rf hfind
      · rcases upsert_group_creates run_id h t st.2.1 with ⟨g, hg, hgp⟩
        exact ⟨g, hashAllGo_groups_mono run_id hashFn stop t hstop rest (i + 1) _ g
          (by simp only [hok]; exact hg), hgp⟩
    · have hne : x.file_id ≠ rf.file_id := by
        intro he
        exact hxnotin (he ▸ List.mem_map_of_mem _ htail)
      cases hcase : hashFn x.source_path with
      | ok h0 =>
        refine ih hndrest (i + 1) _ rf htail h hok ?_
        simp only [hcase]
        rw [set_sha256_find_other rf.file_id x.file_id h0 st.1 (fun he => hne he.symm)]
        exact hfind
      | error e =>
        refine ih hndrest (i + 1) _ rf htail h hok ?_
        simp only [hcase]
        exact hfind

theorem find?_byId_of_nodup (files : List FileRecord)
    (hnd : (files.map FileRecord.file_id).Nodup) (f : FileRecord) (hf : f ∈ files) :
    files.find? (byId f.file_id) = some f := by
  induction files with
  | nil => cases hf
  | cons x xs ih =>
    rw [List.map_cons, List.nodup_cons] at hnd
    rcases hnd with ⟨hxnotin, hndrest⟩
    rw [List.find?]
    cases hx : byId f.file_id x with
    | true =>
      have hxf : x.file_id = f.file_id := by simpa [byId] using hx
      rcases List.mem_cons.mp hf with heq | htail
      · rw [heq]
      · exact absurd (hxf ▸ List.mem_map_of_mem _ htail) hxnotin
    | false =>
      have hxf : x.file_id ≠ f.file_id := by simpa [byId] using hx
      rcases List.mem_cons.mp hf with heq | htail
      · exact absurd (congrArg FileRecord.file_id heq).symm hxf
      · exact ih hndrest htail

/-- C8: `hash_all` (1) preserves the number of `files` rows; (2) leaves
every row that is not selected (non-null fingerprint, or another run)
unchanged; (3) for every selected row whose hash computation succeeds,
sets exactly that row's fingerprint and ensures a hash group for
`(run, fingerprint)` exists; and (4) is a no-op when every row of the run
is already fingerprinted — so a second `hash_all` after a fully successful
one processes nothing and leaves the persisted state unchanged. -/
theorem hash_all_spec (run_id : String) (hashFn : String → Except String String)
    (stop : Nat → Bool) (t : String) (files : List FileRecord)
    (groups : List HashGroup) (ng : Nat) (errors : List ErrorRecord)
    (hnd : (files.map FileRecord.file_id).Nodup) (hstop : ∀ n, stop n = false) :
    ((hash_all run_id hashFn stop t files (groups, ng) errors).1.length = files.length) ∧
    (∀ f ∈ files, ¬ (f.run_id = run_id ∧ f.sha256 = none) →
      (hash_all run_id hashFn stop t files (groups, ng) errors).1.find? (byId f.file_id) =
        files.find? (byId f.file_id)) ∧
    (∀ f ∈ list_files_for_hashing run_id files, ∀ h, hashFn f.source_path = .ok h →
      (hash_all run_id hashFn stop t files (groups, ng) errors).1.find? (byId f.file_id) =
        some { f with sha256 := some h } ∧
      ∃ g ∈ (hash_all run_id hashFn stop t files (groups, ng) errors).2.1.1,
        g.run_id = run_id ∧ g.sha256 = h) ∧
    ((∀ f ∈ files, f.run_id = run_id → f.sha256.isSome) →
      hash_all run_id hashFn stop t files (groups, ng) errors =
        (files, (groups, ng), errors)) := by
  have hsubnd : ((list_files_for_hashing run_id files).map FileRecord.file_id).Nodup :=
    ((List.filter_sublist files).map FileRecord.file_id).nodup hnd
  refine ⟨?_, ?_, ?_, ?_⟩
  · unfold hash_all
    by_cases hz : (list_files_for_hashing run_id files).length = 0
    · rw [if_pos hz]
    · rw [if_neg hz]
      exact hashAllGo_length run_id hashFn stop t hstop _ 0 _
  · intro f hf hnsel
    have hnotin : f.file_id ∉ (list_files_for_hashing run_id files).map FileRecord.file_id := by
      intro hmem
      rcases List.mem_map.mp hmem with ⟨rf, hrf, hid⟩
      have hrfmem : rf ∈ files := List.mem_of_mem_filter hrf
      have : rf = f := List.inj_on_of_nodup_map hnd hrfmem hf hid
      rcases List.mem_filter.mp hrf with ⟨_, hc⟩
      exact hnsel (this ▸ of_decide_eq_true hc)
    unfold hash_all
    by_cases hz : (list_files_for_hashing run_id files).length = 0
    · rw [if_pos hz]
    · rw [if_neg hz]
      exact hashAllGo_find_preserve run_id hashFn stop t hstop _ 0 _ f.file_id hnotin
  · intro f hf h hok
    have hne : (list_files_for_hashing run_id files).length ≠ 0 := by
      intro hz
      rw [List.length_eq_zero] at hz
      rw [hz] at hf
      cases hf
    have hfmem : f ∈ files := List.mem_of_mem_filter hf
    have hfind : files.find? (byId f.file_id) = some f :=
      find?_byId_of_nodup files hnd f hfmem
    unfold hash_all
    rw [if_neg hne]
    exact hashAllGo_processes run_id hashFn stop t hstop _ hsubnd 0 _ f hf h hok hfind
  · intro hall
    have hz : list_files_for_hashing run_id files = [] := by
      unfold list_files_for_hashing
      refine List.filter_eq_nil_iff.mpr ?_
      intro f hf
      intro hc
      rcases of_decide_eq_true hc with ⟨hr, hs⟩
      have := hall f hf hr
      rw [hs] at this
      cases this
    unfold hash_all
    rw [hz]
    rfl

def c8File1 : FileRecord := sampleFile 1 "r1" "/src/a.jpg" none

def c8File2 : FileRecord := sampleFile 2 "r1" "/src/b.jpg" (some "zz")

theorem hash_all_spec_witness :
    ((c8File1 ∈ list_files_for_hashing "r1" [c8File1, c8File2] ∧
        (fun _ : String => (Except.ok "hh" : Except String String)) c8File1.source_path =
          .ok "hh") ∧
      (c8File2 ∈ [c8File1, c8File2] ∧ ¬ (c8File2.run_id = "r1" ∧ c8File2.sha256 = none))) ∧
    ((hash_all "r1" (fun _ => .ok "hh") (fun _ => false) "t1" [c8File1, c8File2]
        ([], 1) []).1.find? (byId c8File1.file_id) =
      some { c8File1 with sha256 := some "hh" } ∧
      ∃ g ∈ (hash_all "r1" (fun _ => .ok "hh") (fun _ => false) "t1" [c8File1, c8File2]
        ([], 1) []).2.1.1, g.run_id = "r1" ∧ g.sha256 = "hh") ∧
    ((hash_all "r1" (fun _ => .ok "hh") (fun _ => false) "t1" [c8File1, c8File2]
        ([], 1) []).1.find? (byId c8File2.file_id) =
      [c8File1, c8File2].find? (byId c8File2.file_id)) := by
  have hlist : list_files_for_hashing "r1" [c8File1, c8File2] = [c8File1] := by decide
  have hmem : c8File1 ∈ list_files_for_hashing "r1" [c8File1, c8File2] := by
    rw [hlist]; exact List.mem_singleton.mpr rfl
  have hspec := hash_all_spec "r1" (fun _ => .ok "hh") (fun _ => false) "t1"
    [c8File1, c8File2] [] 1 [] (by decide) (fun _ => rfl)
  refine ⟨⟨⟨hmem, rfl⟩, ⟨by decide, by decide⟩⟩, ?_, ?_⟩
  · exact hspec.2.2.1 c8File1 hmem "hh" rfl
  · exact hspec.2.1 c8File2 (by decide) (by decide)

/-! ## Claim C4: executor resume selection and frame -/

theorem updatePlan_find_other (pid fid : Nat) (f : PlanItem → PlanItem)
    (hid : ∀ q, (f q).plan_item_id = q.plan_item_id) (hne : fid ≠ pid)
    (plan : List PlanItem) :
    (updatePlan pid f plan).find? (byPid fid) = plan.find? (byPid fid) := by
  refine find?_map_invariant (byPid fid) _ ?_ ?_ plan
  · intro q
    by_cases hq : q.plan_item_id = pid <;> simp [byPid, hq, hid]
  · intro q hq
    have hf : q.plan_item_id = fid := by simpa [byPid] using hq
    have h2 : ¬ q.plan_item_id = pid := by rw [hf]; exact hne
    simp [h2]

theorem executeItem_find_other (run_id : String) (p : PlanItem) (src dst : String)
    (expected : Option String) (oracle : Nat → AttemptOutcome) (policy : String)
    (retries : Nat) (t : String) (plan : List PlanItem) (errors : List ErrorRecord)
    (fid : Nat) (hne : fid ≠ p.plan_item_id) :
    (executeItem run_id p src dst expected oracle policy retries t plan errors).1.find?
      (byPid fid) = plan.find? (byPid fid) := by
  unfold executeItem
  cases execLoop expected oracle policy retries 1 with
  | verified b fp a =>
    show (mark_verified _ _ _ (mark_copying _ _ _)).find? _ = _
    unfold mark_verified mark_copying
    refine (updatePlan_find_other _ _ _ ?_ hne _).trans
      (updatePlan_find_other _ _ _ ?_ hne _) <;> intro q <;> rfl
  | failed code msg a =>
    show (mark_failed _ _ _ _ (mark_copying _ _ _)).find? _ = _
    unfold mark_failed mark_copying
    refine (updatePlan_find_other _ _ _ ?_ hne _).trans
      (updatePlan_find_other _ _ _ ?_ hne _) <;> intro q <;> rfl

theorem executeItem_length (run_id : String) (p : PlanItem) (src dst : String)
    (expected : Option String) (oracle : Nat → AttemptOutcome) (policy : String)
    (retries : Nat) (t : String) (plan : List PlanItem) (errors : List ErrorRecord) :
    (executeItem run_id p src dst expected oracle policy retries t plan errors).1.length =
      plan.length := by
  unfold executeItem
  cases execLoop expected oracle policy retries 1 with
  | verified b fp a =>
    show (mark_verified _ _ _ (mark_copying _ _ _)).length = _
    simp [mark_verified, mark_copying, updatePlan]
  | failed code msg a =>
    show (mark_failed _ _ _ _ (mark_copying _ _ _)).length = _
    simp [mark_failed, mark_copying, updatePlan]

theorem executeGo_find_other (run_id : String) (oracles : Nat → Nat → AttemptOutcome)
    (policy : String) (retries : Nat) (stop : Nat → Bool) (t : String) :
    ∀ (items : List (PlanItem × FileRecord)) (i : Nat)
      (st : List PlanItem × List ErrorRecord) (fid : Nat),
      (∀ qf ∈ items, qf.1.plan_item_id ≠ fid) →
      (executeGo run_id oracles policy retries stop t items i st).1.find? (byPid fid) =
        st.1.find? (byPid fid) := by
  intro items
  induction items with
  | nil => intro i st fid _; rfl
  | cons qf rest ih =>
    intro i st fid hids
    cases hstop : stop i with
    | true => rw [executeGo, if_pos hstop]
    | false =>
      rw [executeGo, if_neg (by simp [hstop])]
      rw [ih (i + 1) _ fid (fun q hq => hids q (List.mem_cons_of_mem _ hq))]
      exact executeItem_find_other run_id qf.1 qf.2.source_path qf.1.dest_path qf.2.sha256
        (oracles qf.1.plan_item_id) policy retries t st.1 st.2 fid
        (fun he => hids qf (List.mem_cons_self qf rest) he.symm)

theorem executeGo_length (run_id : String) (oracles : Nat → Nat → AttemptOutcome)
    (policy : String) (retries : Nat) (stop : Nat → Bool) (t : String) :
    ∀ (items : List (PlanItem × FileRecord)) (i : Nat)
      (st : List PlanItem × List ErrorRecord),
      (executeGo run_id oracles policy retries stop t items i st).1.length =
        st.1.length := by
  intro items
  induction items with
  | nil => intro i st; rfl
  | cons qf rest ih =>
    intro i st
    cases hstop : stop i with
    | true => rw [executeGo, if_pos hstop]
    | false =>
      rw [executeGo, if_neg (by simp [hstop])]
      rw [ih (i + 1) _]
      exact executeItem_length run_id qf.1 qf.2.source_path qf.1.dest_path qf.2.sha256
        (oracles qf.1.plan_item_id) policy retries t st.1 st.2

theorem find?_byPid_of_nodup (plan : List PlanItem)
    (hnd : (plan.map PlanItem.plan_item_id).Nodup) (p : PlanItem) (hp : p ∈ plan) :
    plan.find? (byPid p.plan_item_id) = some p := by
  induction plan with
  | nil => cases hp
  | cons x xs ih =>
    rw [List.map_cons, List.nodup_cons] at hnd
    rcases hnd with ⟨hxnotin, hndrest⟩
    rw [List.find?]
    cases hx : byPid p.plan_item_id x with
    | true =>
      have hxf : x.plan_item_id = p.plan_item_id := by simpa [byPid] using hx
      rcases List.mem_cons.mp hp with heq | htail
      · rw [heq]
      · exact absurd (hxf ▸ List.mem_map_of_mem _ htail) hxnotin
    | false =>
      have hxf : x.plan_item_id ≠ p.plan_item_id := by simpa [byPid] using hx
      rcases List.mem_cons.mp hp with heq | htail
      · exact absurd (congrArg PlanItem.plan_item_id heq).symm hxf
      · exact ih hndrest htail

theorem filterMap_join_fst (files : List FileRecord) :
    ∀ l : List PlanItem, (∀ p ∈ l, ∃ f ∈ files, f.file_id = p.file_id) →
      (l.filterMap (fun p => (files.find? (fun f => decide (f.file_id = p.file_id))).map
        (fun f => (p, f)))).map Prod.fst = l := by
  intro l
  induction l with
  | nil => intro _; rfl
  | cons p rest ih =>
    intro hl
    rcases hl p (List.mem_cons_self p rest) with ⟨f0, hf0, hid⟩
    cases hfind : files.find? (fun f => decide (f.file_id = p.file_id)) with
    | none =>
      exact absurd (decide_eq_true hid)
        (List.find?_eq_none.mp hfind f0 hf0)
    | some f1 =>
      rw [List.filterMap_cons, hfind]
      simp only [Option.map_some']
      rw [List.map_cons]
      rw [ih (fun q hq => hl q (List.mem_cons_of_mem _ hq))]

theorem mem_selection_fst (run_id : String) (plan : List PlanItem)
    (files : List FileRecord) (q : PlanItem) (f2 : FileRecord)
    (hq : (q, f2) ∈ list_pending_for_execution run_id plan files) :
    q ∈ plan ∧ (q.run_id = run_id ∧
      (q.status = "PENDING" ∨ q.status = "COPYING" ∨ q.status = "FAILED")) := by
  rcases List.mem_filterMap.mp hq with ⟨p1, hp1, heq⟩
  cases hfind : files.find? (fun f => decide (f.file_id = p1.file_id)) with
  | none => rw [hfind] at heq; cases heq
  | some f1 =>
    rw [hfind] at heq
    simp only [Option.map_some', Option.some_inj] at heq
    have hp : p1 = q := congrArg Prod.fst heq
    rcases List.mem_filter.mp hp1 with ⟨hmem, hc⟩
    rw [hp] at hmem hc
    exact ⟨hmem, of_decide_eq_true hc⟩

/-- C4: re-running Execute over `list_pending_for_execution` (1) selects
exactly the plan rows of the run with status PENDING, COPYING or FAILED;
(2) preserves the number of plan rows; and (3) leaves every VERIFIED row
unchanged in all fields — it is neither copied again nor mutated. -/
theorem execute_resume_spec (run_id : String) (plan : List PlanItem)
    (files : List FileRecord) (oracles : Nat → Nat → AttemptOutcome)
    (policy : String) (retries : Nat) (stop : Nat → Bool) (t : String)
    (errors : List ErrorRecord)
    (hnd : (plan.map PlanItem.plan_item_id).Nodup)
    (hjoin : ∀ p ∈ plan, ∃ f ∈ files, f.file_id = p.file_id) :
    ((list_pending_for_execution run_id plan files).map Prod.fst =
      plan.filter (fun p => decide (p.run_id = run_id ∧
        (p.status = "PENDING" ∨ p.status = "COPYING" ∨ p.status = "FAILED")))) ∧
    ((execute run_id (list_pending_for_execution run_id plan files) oracles policy
        retries stop t plan errors).1.length = plan.length) ∧
    (∀ p ∈ plan, p.status = "VERIFIED" →
      (execute run_id (list_pending_for_execution run_id plan files) oracles policy
        retries stop t plan errors).1.find? (byPid p.plan_item_id) = some p) := by
  refine ⟨?_, ?_, ?_⟩
  · exact filterMap_join_fst files _
      (fun p hp => hjoin p (List.mem_of_mem_filter hp))
  · exact executeGo_length run_id oracles policy retries stop t _ 0 (plan, errors)
  · intro p hp hst
    have hsel : ∀ qf ∈ list_pending_for_execution run_id plan files,
        qf.1.plan_item_id ≠ p.plan_item_id := by
      intro qf hqf heq
      rcases mem_selection_fst run_id plan files qf.1 qf.2 hqf with ⟨hmem, _, hdisj⟩
      have hqp : qf.1 = p := List.inj_on_of_nodup_map hnd hmem hp heq
      rw [hqp, hst] at hdisj
      rcases hdisj with h | h | h <;> exact absurd h (by decide)
    exact (executeGo_find_other run_id oracles policy retries stop t _ 0 (plan, errors)
      p.plan_item_id hsel).trans (find?_byPid_of_nodup plan hnd p hp)

def c4ItemV : PlanItem := sampleItem 1 "r1" 1 "/dest/Photos/2020/2020-01-02/a.jpg" "VERIFIED"

def c4ItemP : PlanItem := sampleItem 2 "r1" 2 "/dest/Photos/2020/2020-01-02/b.jpg" "PENDING"

def c4Files : List FileRecord :=
  [sampleFile 1 "r1" "/src/a.jpg" (some "ha"), sampleFile 2 "r1" "/src/b.jpg" (some "hb")]

theorem execute_resume_spec_witness :
    (((c4ItemV :: [c4ItemP]).map PlanItem.plan_item_id).Nodup ∧
      c4ItemV ∈ [c4ItemV, c4ItemP] ∧ c4ItemV.status = "VERIFIED") ∧
    ((list_pending_for_execution "r1" [c4ItemV, c4ItemP] c4Files).map Prod.fst =
      [c4ItemV, c4ItemP].filter (fun p => decide (p.run_id = "r1" ∧
        (p.status = "PENDING" ∨ p.status = "COPYING" ∨ p.status = "FAILED")))) ∧
    ((execute "r1" (list_pending_for_execution "r1" [c4ItemV, c4ItemP] c4Files)
        (fun _ _ => .ok 7 "hb") "RETRY_THEN_SKIP" 2 (fun _ => false) "t1"
        [c4ItemV, c4ItemP] []).1.find? (byPid c4ItemV.plan_item_id) = some c4ItemV) := by
  have h := execute_resume_spec "r1" [c4ItemV, c4ItemP] c4Files (fun _ _ => .ok 7 "hb")
    "RETRY_THEN_SKIP" 2 (fun _ => false) "t1" [] (by decide)
    (by
      intro p hp
      rcases List.mem_cons.mp hp with h1 | h1
      · exact ⟨sampleFile 1 "r1" "/src/a.jpg" (some "ha"), by decide, by rw [h1]; decide⟩
      · have h2 : p = c4ItemP := by simpa using h1
        exact ⟨sampleFile 2 "r1" "/src/b.jpg" (some "hb"), by decide, by rw [h2]; decide⟩)
  exact ⟨⟨by decide, by decide, by decide⟩, h.1,
    h.2.2 c4ItemV (by decide) (by decide)⟩

/-! ## Claims C1 and C7: the executor's verify and retry behaviour -/

theorem failResult_ne_verified (estr : String) (attempt b a : Nat) (fp : String) :
    failResult estr attempt ≠ .verified b fp a := by
  simp [failResult]

theorem execLoopGo_verified_fp (expected : Option String) (oracle : Nat → AttemptOutcome)
    (policy : String) (retries : Nat) :
    ∀ fuel attempt b fp a,
      execLoopGo expected oracle policy retries fuel attempt = .verified b fp a →
      oracle a = .ok b fp ∧ (truthy expected = true → expected = some fp) := by
  intro fuel
  induction fuel with
  | zero =>
    intro attempt b fp a h
    rw [execLoopGo] at h
    cases hor : oracle attempt with
    | ok b0 fp0 =>
      rw [hor] at h
      simp only at h
      by_cases hc : truthy expected = true ∧ expected ≠ some fp0
      · rw [if_pos hc] at h
        by_cases hr : policy = "RETRY_THEN_SKIP" ∧ attempt ≤ retries
        · rw [if_pos hr] at h
          exact absurd h (failResult_ne_verified _ _ _ _ _)
        · rw [if_neg hr] at h
          exact absurd h (failResult_ne_verified _ _ _ _ _)
      · rw [if_neg hc] at h
        rcases ExecOutcome.verified.inj h with ⟨hb, hfp, ha⟩
        subst hb; subst hfp; subst ha
        refine ⟨hor, ?_⟩
        intro ht
        rw [not_and_or] at hc
        rcases hc with hc | hc
        · exact absurd ht hc
        · exact not_not.mp hc
    | err estr =>
      rw [hor] at h
      simp only at h
      by_cases hr : policy = "RETRY_THEN_SKIP" ∧ attempt ≤ retries
      · rw [if_pos hr] at h
        exact absurd h (failResult_ne_verified _ _ _ _ _)
      · rw [if_neg hr] at h
        exact absurd h (failResult_ne_verified _ _ _ _ _)
  | succ fuel ih =>
    intro attempt b fp a h
    rw [execLoopGo] at h
    cases hor : oracle attempt with
    | ok b0 fp0 =>
      rw [hor] at h
      simp only at h
      by_cases hc : truthy expected = true ∧ expected ≠ some fp0
      · rw [if_pos hc] at h
        by_cases hr : policy = "RETRY_THEN_SKIP" ∧ attempt ≤ retries
        · rw [if_pos hr] at h
          exact ih (attempt + 1) b fp a h
        · rw [if_neg hr] at h
          exact absurd h (failResult_ne_verified _ _ _ _ _)
      · rw [if_neg hc] at h
        rcases ExecOutcome.verified.inj h with ⟨hb, hfp, ha⟩
        subst hb; subst hfp; subst ha
        refine ⟨hor, ?_⟩
        intro ht
        rw [not_and_or] at hc
        rcases hc with hc | hc
        · exact absurd ht hc
        · exact not_not.mp hc
    | err estr =>
      rw [hor] at h
      simp only at h
      by_cases hr : policy = "RETRY_THEN_SKIP" ∧ attempt ≤ retries
      · rw [if_pos hr] at h
        exact ih (attempt + 1) b fp a h
      · rw [if_neg hr] at h
        exact absurd h (failResult_ne_verified _ _ _ _ _)

theorem execLoopGo_corrupt_fails (expected : Option String)
    (oracle : Nat → AttemptOutcome) (policy : String) (retries : Nat)
    (htr : truthy expected = true)
    (hcor : ∀ a, ∃ b fp, oracle a = .ok b fp ∧ expected ≠ some fp) :
    ∀ fuel attempt, ∃ k,
      execLoopGo expected oracle policy retries fuel attempt =
        .failed "VERIFY_FAIL" "SHA256 mismatch after copy" k := by
  intro fuel
  induction fuel with
  | zero =>
    intro attempt
    rcases hcor attempt with ⟨b, fp, hor, hne⟩
    rw [execLoopGo, hor]
    simp only
    rw [if_pos ⟨htr, hne⟩]
    by_cases hr : policy = "RETRY_THEN_SKIP" ∧ attempt ≤ retries
    · rw [if_pos hr]
      exact ⟨attempt, by simp [failResult, failCodeMsg]⟩
    · rw [if_neg hr]
      exact ⟨attempt, by simp [failResult, failCodeMsg]⟩
  | succ fuel ih =>
    intro attempt
    rcases hcor attempt with ⟨b, fp, hor, hne⟩
    rw [execLoopGo, hor]
    simp only
    rw [if_pos ⟨htr, hne⟩]
    by_cases hr : policy = "RETRY_THEN_SKIP" ∧ attempt ≤ retries
    · rw [if_pos hr]
      exact ih (attempt + 1)
    · rw [if_neg hr]
      exact ⟨attempt, by simp [failResult, failCodeMsg]⟩

theorem mem_mark_failed_self (pid : Nat) (c m t : String) (plan : List PlanItem) :
    ∀ q ∈ mark_failed pid c m t plan, q.plan_item_id = pid →
      q.status = "FAILED" ∧ q.error_code = some c := by
  intro q hq hqid
  rcases mem_updatePlan hq with ⟨q0, hq0, hqe⟩
  by_cases h0 : q0.plan_item_id = pid
  · rw [hqe, if_pos h0]
    exact ⟨rfl, rfl⟩
  · rw [hqe, if_neg h0] at hqid
    exact absurd hqid h0

/-- C1 (amended): for an item whose source has a non-empty stored
fingerprint `e`, the attempt loop returns `verified` only when the
recomputed destination fingerprint of the successful attempt equals `e`;
and when every attempt's copy completes but recomputes a fingerprint
different from `e` (persistent corruption), the loop ends in a
`VERIFY_FAIL` failure, `executeItem` marks the item FAILED — never
VERIFIED — and logs a VERIFY-phase error. -/
theorem executor_verify_spec (run_id : String) (p : PlanItem) (src dst : String)
    (e : String) (oracle : Nat → AttemptOutcome) (policy : String) (retries : Nat)
    (t : String) (plan : List PlanItem) (errors : List ErrorRecord) (he : e ≠ "") :
    (∀ b fp a, execLoop (some e) oracle policy retries 1 = .verified b fp a →
      fp = e ∧ oracle a = .ok b fp) ∧
    ((∀ a, ∃ b fp, oracle a = .ok b fp ∧ fp ≠ e) →
      (∃ k, execLoop (some e) oracle policy retries 1 =
          .failed "VERIFY_FAIL" "SHA256 mismatch after copy" k) ∧
      (∀ q ∈ (executeItem run_id p src dst (some e) oracle policy retries t
          plan errors).1,
        q.plan_item_id = p.plan_item_id →
          q.status = "FAILED" ∧ q.error_code = some "VERIFY_FAIL") ∧
      (∃ r ∈ (executeItem run_id p src dst (some e) oracle policy retries t
          plan errors).2, r.phase = "VERIFY" ∧ r.code = some "VERIFY_FAIL")) := by
  have htr : truthy (some e) = true := by simpa [truthy] using he
  constructor
  · intro b fp a h
    rcases execLoopGo_verified_fp (some e) oracle policy retries _ 1 b fp a h with
      ⟨hor, himp⟩
    have := himp htr
    exact ⟨(Option.some_inj.mp this).symm, hor⟩
  · intro hcor
    have hcor2 : ∀ a, ∃ b fp, oracle a = .ok b fp ∧ (some e : Option String) ≠ some fp := by
      intro a
      rcases hcor a with ⟨b, fp, hor, hne⟩
      exact ⟨b, fp, hor, by simpa using fun hh => hne hh.symm⟩
    rcases execLoopGo_corrupt_fails (some e) oracle policy retries htr hcor2
      (retries + 1 - 1) 1 with ⟨k, hk⟩
    have hk2 : execLoop (some e) oracle policy retries 1 =
        .failed "VERIFY_FAIL" "SHA256 mismatch after copy" k := by
      rw [execLoop]; exact hk
    refine ⟨⟨k, hk2⟩, ?_, ?_⟩
    · intro q hq hqid
      unfold executeItem at hq
      rw [hk2] at hq
      simp only at hq
      exact mem_mark_failed_self p.plan_item_id "VERIFY_FAIL" _ t _ q hq hqid
    · unfold executeItem
      rw [hk2]
      simp only
      refine ⟨{ run_id := run_id, plan_item_id := some p.plan_item_id,
                phase := "VERIFY", code := some "VERIFY_FAIL",
                message := "SHA256 mismatch after copy", source_path := some src,
                dest_path := some dst, created_at := t }, ?_, rfl, rfl⟩
      rw [if_neg (by decide)]
      simp [errorAdd]

theorem executor_verify_spec_witness :
    (("h1" : String) ≠ "") ∧
    ((∃ k, execLoop (some "h1") (fun _ => .ok 5 "zz") "RETRY_THEN_SKIP" 2 1 =
        .failed "VERIFY_FAIL" "SHA256 mismatch after copy" k) ∧
      (∀ q ∈ (executeItem "r1" c4ItemP "/src/b.jpg" c4ItemP.dest_path (some "h1")
          (fun _ => .ok 5 "zz") "RETRY_THEN_SKIP" 2 "t1" [c4ItemP] []).1,
        q.plan_item_id = c4ItemP.plan_item_id →
          q.status = "FAILED" ∧ q.error_code = some "VERIFY_FAIL") ∧
      (∃ r ∈ (executeItem "r1" c4ItemP "/src/b.jpg" c4ItemP.dest_path (some "h1")
          (fun _ => .ok 5 "zz") "RETRY_THEN_SKIP" 2 "t1" [c4ItemP] []).2,
        r.phase = "VERIFY" ∧ r.code = some "VERIFY_FAIL")) :=
  ⟨by decide,
   (executor_verify_spec "r1" c4ItemP "/src/b.jpg" c4ItemP.dest_path "h1"
      (fun _ => .ok 5 "zz") "RETRY_THEN_SKIP" 2 "t1" [c4ItemP] [] (by decide)).2
     (fun a => ⟨5, "zz", rfl, by decide⟩)⟩

def c1Item : PlanItem := sampleItem 1 "r1" 1 "/dest/Photos/2020/2020-01-02/a.jpg" "PENDING"

def c1File : FileRecord := sampleFile 1 "r1" "/src/a.jpg" none

/-- C1 (counterexample to the claim as stated): an item whose source has
no stored fingerprint (hashing incomplete) is marked VERIFIED by a run of
`execute` although the recomputed destination fingerprint "aa" does not
equal the stored fingerprint (NULL): the executor's check
`if expected and actual != expected` skips verification entirely for a
falsy stored fingerprint. -/
theorem executor_verified_without_fingerprint_check :
    (execute "r1" [(c1Item, c1File)] (fun _ _ => .ok 5 "aa") "RETRY_THEN_SKIP" 2
        (fun _ => false) "t1" [c1Item] []).1 =
      [{ c1Item with status := "VERIFIED", started_at := some "t1",
                     finished_at := some "t1", bytes_copied := some 5 }] ∧
    c1File.sha256 = none ∧ c1File.sha256 ≠ some "aa" := by decide

theorem execLoopGo_fail_retry (expected : Option String) (oracle : Nat → AttemptOutcome)
    (retries fuel attempt : Nat)
    (hfail : attemptFails expected (oracle attempt) = true) (hcond : attempt ≤ retries) :
    execLoopGo expected oracle "RETRY_THEN_SKIP" retries (fuel + 1) attempt =
      execLoopGo expected oracle "RETRY_THEN_SKIP" retries fuel (attempt + 1) := by
  rw [execLoopGo]
  cases hor : oracle attempt with
  | ok b fp =>
    rw [hor] at hfail
    simp only [attemptFails, Bool.and_eq_true] at hfail
    have h1 : truthy expected = true := hfail.1
    have h2 : expected ≠ some fp := of_decide_eq_true hfail.2
    simp only
    rw [if_pos ⟨h1, h2⟩, if_pos ⟨trivial, hcond⟩]
  | err estr =>
    simp only
    rw [if_pos ⟨trivial, hcond⟩]

theorem execLoopGo_fail_final (expected : Option String) (oracle : Nat → AttemptOutcome)
    (retries fuel attempt : Nat)
    (hfail : attemptFails expected (oracle attempt) = true) (hcond : ¬ attempt ≤ retries) :
    execLoopGo expected oracle "RETRY_THEN_SKIP" retries fuel attempt =
      failResult (failStrOf (oracle attempt)) attempt := by
  rw [execLoopGo]
  cases hor : oracle attempt with
  | ok b fp =>
    rw [hor] at hfail
    simp only [attemptFails, Bool.and_eq_true] at hfail
    have h1 : truthy expected = true := hfail.1
    have h2 : expected ≠ some fp := of_decide_eq_true hfail.2
    simp only
    rw [if_pos ⟨h1, h2⟩, if_neg (fun hc => hcond hc.2)]
    rfl
  | err estr =>
    simp only
    rw [if_neg (fun hc => hcond hc.2)]
    rfl

/-- C7: under the default RETRY_THEN_SKIP policy with `retries = 2`, an
item for which every attempt fails is tried exactly three times (the loop
exits with attempt counter 3), is marked FAILED with code VERIFY_FAIL when
the final failure is a fingerprint mismatch and COPY_FAIL otherwise, and
exactly one ErrorRecord is appended, tagged to the VERIFY or COPY phase
respectively. -/
theorem executor_retry_spec (run_id : String) (p : PlanItem) (src dst : String)
    (expected : Option String) (oracle : Nat → AttemptOutcome) (t : String)
    (plan : List PlanItem) (errors : List ErrorRecord)
    (h1 : attemptFails expected (oracle 1) = true)
    (h2 : attemptFails expected (oracle 2) = true)
    (h3 : attemptFails expected (oracle 3) = true)
    (hnp : ∀ s, oracle 3 = .err s → s ≠ "SHA256_MISMATCH") :
    (∃ msg, execLoop expected oracle "RETRY_THEN_SKIP" 2 1 =
      .failed (match oracle 3 with
               | .ok _ _ => "VERIFY_FAIL"
               | .err _ => "COPY_FAIL") msg 3) ∧
    ((executeItem run_id p src dst expected oracle "RETRY_THEN_SKIP" 2 t plan
        errors).2.length = errors.length + 1) ∧
    (∃ er, (executeItem run_id p src dst expected oracle "RETRY_THEN_SKIP" 2 t plan
        errors).2 = errors ++ [er] ∧
      er.phase = (match oracle 3 with
                  | .ok _ _ => "VERIFY"
                  | .err _ => "COPY") ∧
      er.code = some (match oracle 3 with
                      | .ok _ _ => "VERIFY_FAIL"
                      | .err _ => "COPY_FAIL") ∧
      er.plan_item_id = some p.plan_item_id) ∧
    (∀ q ∈ (executeItem run_id p src dst expected oracle "RETRY_THEN_SKIP" 2 t plan
        errors).1, q.plan_item_id = p.plan_item_id → q.status = "FAILED") := by
  have hloop : execLoop expected oracle "RETRY_THEN_SKIP" 2 1 =
      failResult (failStrOf (oracle 3)) 3 := by
    show execLoopGo expected oracle "RETRY_THEN_SKIP" 2 (2 + 1 - 1) 1 = _
    have e1 : execLoopGo expected oracle "RETRY_THEN_SKIP" 2 2 1 =
        execLoopGo expected oracle "RETRY_THEN_SKIP" 2 1 2 :=
      execLoopGo_fail_retry expected oracle 2 1 1 h1 (by omega)
    have e2 : execLoopGo expected oracle "RETRY_THEN_SKIP" 2 1 2 =
        execLoopGo expected oracle "RETRY_THEN_SKIP" 2 0 3 :=
      execLoopGo_fail_retry expected oracle 2 0 2 h2 (by omega)
    have e3 : execLoopGo expected oracle "RETRY_THEN_SKIP" 2 0 3 =
        failResult (failStrOf (oracle 3)) 3 :=
      execLoopGo_fail_final expected oracle 2 0 3 h3 (by omega)
    exact (e1.trans e2).trans e3
  cases hor3 : oracle 3 with
  | ok b fp =>
    rw [hor3] at hloop
    have hfr : failResult (failStrOf (AttemptOutcome.ok b fp)) 3 =
        .failed "VERIFY_FAIL" "SHA256 mismatch after copy" 3 := by
      simp [failResult, failStrOf, failCodeMsg]
    rw [hfr] at hloop
    refine ⟨⟨"SHA256 mismatch after copy", hloop⟩, ?_, ?_, ?_⟩
    · unfold executeItem
      rw [hloop]
      simp only
      rw [if_neg (by decide)]
      simp [errorAdd]
    · unfold executeItem
      rw [hloop]
      simp only
      rw [if_neg (by decide)]
      exact ⟨_, rfl, rfl, rfl, rfl⟩
    · intro q hq hqid
      unfold executeItem at hq
      rw [hloop] at hq
      simp only at hq
      exact (mem_mark_failed_self p.plan_item_id "VERIFY_FAIL" _ t _ q hq hqid).1
  | err estr =>
    have hne : estr ≠ "SHA256_MISMATCH" := hnp estr hor3
    rw [hor3] at hloop
    have hfr : failResult (failStrOf (AttemptOutcome.err estr)) 3 =
        .failed "COPY_FAIL" estr 3 := by
      simp [failResult, failStrOf, failCodeMsg, hne]
    rw [hfr] at hloop
    refine ⟨⟨estr, hloop⟩, ?_, ?_, ?_⟩
    · unfold executeItem
      rw [hloop]
      simp only
      rw [if_pos trivial]
      simp [errorAdd]
    · unfold executeItem
      rw [hloop]
      simp only
      rw [if_pos trivial]
      exact ⟨_, rfl, rfl, rfl, rfl⟩
    · intro q hq hqid
      unfold executeItem at hq
      rw [hloop] at hq
      simp only at hq
      exact (mem_mark_failed_self p.plan_item_id "COPY_FAIL" _ t _ q hq hqid).1

theorem executor_retry_spec_witness :
    (attemptFails (some "h1") ((fun _ => .err "OSError: boom") 1) = true ∧
      attemptFails (some "h1") ((fun _ => .err "OSError: boom") 2) = true ∧
      attemptFails (some "h1") ((fun _ => .err "OSError: boom") 3) = true) ∧
    (∃ msg, execLoop (some "h1") (fun _ => .err "OSError: boom") "RETRY_THEN_SKIP" 2 1 =
      .failed (match (fun _ : Nat => AttemptOutcome.err "OSError: boom") 3 with
               | .ok _ _ => "VERIFY_FAIL"
               | .err _ => "COPY_FAIL") msg 3) ∧
    ((executeItem "r1" c4ItemP "/src/b.jpg" c4ItemP.dest_path (some "h1")
        (fun _ => .err "OSError: boom") "RETRY_THEN_SKIP" 2 "t1" [c4ItemP]
        []).2.length = ([] : List ErrorRecord).length + 1) :=
  ⟨⟨by decide, by decide, by decide⟩,
   (executor_retry_spec "r1" c4ItemP "/src/b.jpg" c4ItemP.dest_path (some "h1")
      (fun _ => .err "OSError: boom") "t1" [c4ItemP] [] (by decide) (by decide)
      (by decide) (fun s hs => by
        have : s = "OSError: boom" := (AttemptOutcome.err.inj hs).symm
        rw [this]; decide)).1,
   (executor_retry_spec "r1" c4ItemP "/src/b.jpg" c4ItemP.dest_path (some "h1")
      (fun _ => .err "OSError: boom") "t1" [c4ItemP] [] (by decide) (by decide)
      (by decide) (fun s hs => by
        have : s = "OSError: boom" := (AttemptOutcome.err.inj hs).symm
        rw [this]; decide)).2.1⟩

/-! ## Claim C3: deterministic dedup plan (one item per file, one COPY
per fingerprint group, lowest file id wins) -/

theorem find?_map_comm {α : Type} (p : α → Bool) (u : α → α)
    (hp : ∀ x, p (u x) = p x) :
    ∀ l : List α, (l.map u).find? p = (l.find? p).map u := by
  intro l
  induction l with
  | nil => rfl
  | cons x xs ih =>
    simp only [List.map_cons, List.find?]
    rw [hp x]
    cases hx : p x with
    | true => rfl
    | false => exact ih

theorem planFile_file_id (run_id dest_root : String) (groups : List HashGroup)
    (disk : List String) (f : FileRecord) :
    (planFile run_id dest_root groups disk f).file_id = f.file_id := by
  unfold planFile
  rcases joinGroup groups f with _ | g <;> dsimp only <;>
    repeat' first | rfl | split

theorem findPred {α : Type} (p : α → Bool) :
    ∀ (l : List α) (a : α), l.find? p = some a → p a = true := by
  intro l
  induction l with
  | nil => intro a h; simp [List.find?] at h
  | cons x xs ih =>
    intro a h
    rw [List.find?] at h
    cases hx : p x with
    | true =>
      rw [hx] at h
      rw [← Option.some_inj.mp h]
      exact hx
    | false =>
      rw [hx] at h
      exact ih a h

theorem joinGroup_assignPrimaries (run_id : String) (files : List FileRecord)
    (groups : List HashGroup) (f : FileRecord) (s : String)
    (hrun : f.run_id = run_id) (hsha : f.sha256 = some s) (hfmem : f ∈ files)
    (hg : ∃ g ∈ groups, g.run_id = run_id ∧ g.sha256 = s) :
    ∃ g1, joinGroup (assignPrimaries run_id files groups) f = some g1 ∧
      g1.primary_file_id = minFileId run_id files s ∧ g1.sha256 = s := by
  have hp : ∀ g : HashGroup,
      (fun g : HashGroup => decide (g.run_id = f.run_id ∧ g.sha256 = s))
        (if g.run_id = run_id ∧
            (files.any fun f2 => decide (f2.run_id = run_id ∧ f2.sha256 = some g.sha256)) then
          { g with primary_file_id := minFileId run_id files g.sha256 }
        else g) =
      (fun g : HashGroup => decide (g.run_id = f.run_id ∧ g.sha256 = s)) g := by
    intro g
    split <;> rfl
  have hjoin : joinGroup (assignPrimaries run_id files groups) f =
      (groups.find? (fun g => decide (g.run_id = f.run_id ∧ g.sha256 = s))).map
        (fun g =>
          if g.run_id = run_id ∧
              (files.any fun f2 => decide (f2.run_id = run_id ∧ f2.sha256 = some g.sha256)) then
            { g with primary_file_id := minFileId run_id files g.sha256 }
          else g) := by
    unfold joinGroup assignPrimaries
    rw [hsha]
    exact find?_map_comm _ _ hp groups
  rcases hg with ⟨g0, hg0, hg0r, hg0s⟩
  cases hfind : groups.find? (fun g => decide (g.run_id = f.run_id ∧ g.sha256 = s)) with
  | none =>
    exact absurd (decide_eq_true ⟨hg0r.trans hrun.symm, hg0s⟩)
      (List.find?_eq_none.mp hfind g0 hg0)
  | some g1 =>
    have hg1pb := findPred _ groups g1 hfind
    have hg1p : g1.run_id = f.run_id ∧ g1.sha256 = s := of_decide_eq_true hg1pb
    have hcond : g1.run_id = run_id ∧
        (files.any fun f2 => decide (f2.run_id = run_id ∧ f2.sha256 = some g1.sha256)) := by
      refine ⟨hg1p.1.trans hrun, ?_⟩
      refine List.any_eq_true.mpr ⟨f, hfmem, ?_⟩
      rw [hg1p.2]
      exact decide_eq_true ⟨hrun, hsha⟩
    refine ⟨{ g1 with primary_file_id := minFileId run_id files g1.sha256 }, ?_, ?_, ?_⟩
    · rw [hjoin, hfind]
      simp only [Option.map_some']
      rw [if_pos hcond]
    · show minFileId run_id files g1.sha256 = minFileId run_id files s
      rw [hg1p.2]
    · exact hg1p.2

theorem planFile_nosha (run_id dest_root : String) (groups : List HashGroup)
    (disk : List String) (f : FileRecord) (hsha : f.sha256 = none) :
    (planFile run_id dest_root groups disk f).action = "COPY" ∧
    (planFile run_id dest_root groups disk f).is_primary_in_group = true ∧
    (planFile run_id dest_root groups disk f).duplicate_group_id = none := by
  have hj : joinGroup groups f = none := by
    unfold joinGroup
    rw [hsha]
  unfold planFile
  rw [hj]
  dsimp only
  repeat' split
  all_goals exact ⟨rfl, rfl, rfl⟩

theorem planFile_action_eq (run_id dest_root : String) (groups : List HashGroup)
    (disk : List String) (f : FileRecord) (g1 : HashGroup)
    (hj : joinGroup groups f = some g1) :
    (planFile run_id dest_root groups disk f).action =
      (if g1.primary_file_id = some f.file_id then "COPY" else "COPY_TO_DUPLICATES") := by
  unfold planFile
  rw [hj]
  dsimp only
  cases hd : decide (g1.primary_file_id = some f.file_id) with
  | false =>
    rw [if_pos (by decide : ¬ false = true), if_neg (of_decide_eq_false hd)]
    split
    · rename_i h
      simp at h
    · rfl
  | true =>
    rw [if_neg (by decide : ¬ ¬ true = true), if_pos (of_decide_eq_true hd)]
    split
    · split <;> rfl
    · rename_i h
      exact absurd rfl h

theorem planFile_sha (run_id dest_root : String) (files : List FileRecord)
    (groups : List HashGroup) (disk : List String) (f : FileRecord) (s : String)
    (hrun : f.run_id = run_id) (hsha : f.sha256 = some s) (hfmem : f ∈ files)
    (hg : ∃ g ∈ groups, g.run_id = run_id ∧ g.sha256 = s) :
    ((planFile run_id dest_root (assignPrimaries run_id files groups) disk f).action =
        "COPY" ↔ minFileId run_id files s = some f.file_id) ∧
    ((planFile run_id dest_root (assignPrimaries run_id files groups) disk f).action ≠
        "COPY" →
      (planFile run_id dest_root (assignPrimaries run_id files groups) disk f).action =
        "COPY_TO_DUPLICATES") := by
  rcases joinGroup_assignPrimaries run_id files groups f s hrun hsha hfmem hg with
    ⟨g1, hj, hprim, hgs⟩
  have hact := planFile_action_eq run_id dest_root _ disk f g1 hj
  constructor
  · constructor
    · intro hcopy
      by_cases hm : g1.primary_file_id = some f.file_id
      · rw [← hprim]; exact hm
      · rw [hact, if_neg hm] at hcopy
        exact absurd hcopy (by decide)
    · intro hmin2
      rw [hact, if_pos (by rw [hprim, hmin2])]
  · intro hne
    by_cases hm : g1.primary_file_id = some f.file_id
    · exact absurd (by rw [hact, if_pos hm]) hne
    · rw [hact, if_neg hm]

/-- C3: `build_plan` produces exactly one draft per FileRecord of the run
(the drafts' file ids are the run's file ids, in order); every file
without a fingerprint is planned as an ungrouped COPY primary; for every
fingerprint, a member's draft has action COPY exactly when its file id is
the group's minimal file id — and all other members of the fingerprint get
COPY_TO_DUPLICATES — so any two members of one fingerprint that are both
planned COPY are the same record. -/
theorem build_plan_dedup_spec (run_id dest_root : String) (files : List FileRecord)
    (groups : List HashGroup) (disk : List String)
    (hnd : (files.map FileRecord.file_id).Nodup)
    (hg : ∀ f ∈ files, f.run_id = run_id → ∀ s, f.sha256 = some s →
      ∃ g ∈ groups, g.run_id = run_id ∧ g.sha256 = s) :
    ((build_plan run_id dest_root files groups disk).2.1 =
      (files.filter (fun f => decide (f.run_id = run_id))).map
        (planFile run_id dest_root (assignPrimaries run_id files groups) disk)) ∧
    ((build_plan run_id dest_root files groups disk).2.1.map PlanDraft.file_id =
      (files.filter (fun f => decide (f.run_id = run_id))).map FileRecord.file_id) ∧
    (∀ f ∈ files.filter (fun f => decide (f.run_id = run_id)), f.sha256 = none →
      (planFile run_id dest_root (assignPrimaries run_id files groups) disk f).action =
        "COPY" ∧
      (planFile run_id dest_root (assignPrimaries run_id files groups) disk
          f).is_primary_in_group = true ∧
      (planFile run_id dest_root (assignPrimaries run_id files groups) disk
          f).duplicate_group_id = none) ∧
    (∀ f ∈ files.filter (fun f => decide (f.run_id = run_id)), ∀ s, f.sha256 = some s →
      ((planFile run_id dest_root (assignPrimaries run_id files groups) disk f).action =
          "COPY" ↔ minFileId run_id files s = some f.file_id) ∧
      ((planFile run_id dest_root (assignPrimaries run_id files groups) disk f).action ≠
          "COPY" →
        (planFile run_id dest_root (assignPrimaries run_id files groups) disk f).action =
          "COPY_TO_DUPLICATES")) ∧
    (∀ f ∈ files.filter (fun f => decide (f.run_id = run_id)),
     ∀ f2 ∈ files.filter (fun f => decide (f.run_id = run_id)), ∀ s,
      f.sha256 = some s → f2.sha256 = some s →
      (planFile run_id dest_root (assignPrimaries run_id files groups) disk f).action =
        "COPY" →
      (planFile run_id dest_root (assignPrimaries run_id files groups) disk f2).action =
        "COPY" → f = f2) := by
  have hmemrun : ∀ f ∈ files.filter (fun f => decide (f.run_id = run_id)),
      f ∈ files ∧ f.run_id = run_id := by
    intro f hf
    rcases List.mem_filter.mp hf with ⟨hm, hc⟩
    exact ⟨hm, of_decide_eq_true hc⟩
  refine ⟨rfl, ?_, ?_, ?_, ?_⟩
  · have hitems : (build_plan run_id dest_root files groups disk).2.1 =
        (files.filter (fun f => decide (f.run_id = run_id))).map
          (planFile run_id dest_root (assignPrimaries run_id files groups) disk) := rfl
    rw [hitems, List.map_map]
    exact List.map_congr_left (fun f _ => planFile_file_id run_id dest_root _ disk f)
  · intro f hf hsha
    exact planFile_nosha run_id dest_root _ disk f hsha
  · intro f hf s hsha
    rcases hmemrun f hf with ⟨hm, hr⟩
    exact planFile_sha run_id dest_root files groups disk f s hr hsha hm
      (hg f hm hr s hsha)
  · intro f hf f2 hf2 s hsha hsha2 hcopy hcopy2
    rcases hmemrun f hf with ⟨hm, hr⟩
    rcases hmemrun f2 hf2 with ⟨hm2, hr2⟩
    have hiff := (planFile_sha run_id dest_root files groups disk f s hr hsha hm
      (hg f hm hr s hsha)).1
    have hiff2 := (planFile_sha run_id dest_root files groups disk f2 s hr2 hsha2 hm2
      (hg f2 hm2 hr2 s hsha2)).1
    have hmin1 := hiff.mp hcopy
    have hmin2 := hiff2.mp hcopy2
    have hid : f.file_id = f2.file_id := by
      have := hmin1.symm.trans hmin2
      exact Option.some_inj.mp this
    exact List.inj_on_of_nodup_map hnd hm hm2 hid

def c3Files : List FileRecord :=
  [sampleFile 1 "r1" "/src/B.jpg" (some "hh"), sampleFile 2 "r1" "/src/C.jpg" (some "hh"),
   sampleFile 3 "r1" "/src/D.jpg" none]

def c3Groups : List HashGroup := [sampleGroup 7 "r1" "hh"]

theorem build_plan_dedup_spec_witness :
    ((build_plan "r1" "/dest" c3Files c3Groups []).2.1.map PlanDraft.file_id =
      (c3Files.filter (fun f => decide (f.run_id = "r1"))).map FileRecord.file_id) ∧
    ((planFile "r1" "/dest" (assignPrimaries "r1" c3Files c3Groups) []
        (sampleFile 1 "r1" "/src/B.jpg" (some "hh"))).action = "COPY" ↔
      minFileId "r1" c3Files "hh" = some 1) ∧
    ((planFile "r1" "/dest" (assignPrimaries "r1" c3Files c3Groups) []
        (sampleFile 3 "r1" "/src/D.jpg" none)).action = "COPY") := by
  have hg : ∀ f ∈ c3Files, f.run_id = "r1" → ∀ s, f.sha256 = some s →
      ∃ g ∈ c3Groups, g.run_id = "r1" ∧ g.sha256 = s := by
    intro f hf hr s hs
    refine ⟨sampleGroup 7 "r1" "hh", by decide, rfl, ?_⟩
    rcases List.mem_cons.mp hf with h1 | h1
    · rw [h1] at hs
      exact Option.some_inj.mp (show some "hh" = some s from hs)
    rcases List.mem_cons.mp h1 with h2 | h2
    · rw [h2] at hs
      exact Option.some_inj.mp (show some "hh" = some s from hs)
    have h3 : f = sampleFile 3 "r1" "/src/D.jpg" none := by simpa using h2
    rw [h3] at hs; simp [sampleFile] at hs
  have hspec := build_plan_dedup_spec "r1" "/dest" c3Files c3Groups [] (by decide) hg
  have hmemB : sampleFile 1 "r1" "/src/B.jpg" (some "hh") ∈
      c3Files.filter (fun f => decide (f.run_id = "r1")) := by
    rw [(by decide : c3Files.filter (fun f => decide (f.run_id = "r1")) = c3Files)]
    exact List.mem_cons_self _ _
  have hmemD : sampleFile 3 "r1" "/src/D.jpg" none ∈
      c3Files.filter (fun f => decide (f.run_id = "r1")) := by
    rw [(by decide : c3Files.filter (fun f => decide (f.run_id = "r1")) = c3Files)]
    exact List.mem_cons_of_mem _ (List.mem_cons_of_mem _ (List.mem_cons_self _ _))
  exact ⟨hspec.2.1,
    (hspec.2.2.2.1 (sampleFile 1 "r1" "/src/B.jpg" (some "hh")) hmemB "hh" rfl).1,
    (hspec.2.2.1 (sampleFile 3 "r1" "/src/D.jpg" none) hmemD rfl).1⟩

/-! ## Claim C2: destination uniqueness at plan-build time -/

def c2File1 : FileRecord := sampleFile 1 "r1" "/src/a/IMG.jpg" (some "h1")

def c2File2 : FileRecord := sampleFile 2 "r1" "/src/b/IMG.jpg" (some "h2")

def c2Groups : List HashGroup := [sampleGroup 1 "r1" "h1", sampleGroup 2 "r1" "h2"]

/-- C2 (the code evaluated at the failing input): two primaries with
different fingerprints but the same base name, media type and chosen date
are planned to the SAME destination path with collision suffix 0 on an
empty destination tree, and the collision counter stays 0 — the planned
destination paths are not pairwise distinct.  `resolve_collision` probes
only `os.path.exists` on disk; names placed earlier in the same planning
pass are not on disk yet, so in-pass collisions are never detected. -/
theorem build_plan_collision_bug :
    ((build_plan "r1" "/dest" [c2File1, c2File2] c2Groups []).2.1.map
        PlanDraft.dest_path =
      ["/dest/Photos/2020/2020-01-02/IMG.jpg",
       "/dest/Photos/2020/2020-01-02/IMG.jpg"]) ∧
    ((build_plan "r1" "/dest" [c2File1, c2File2] c2Groups []).2.1.map
        PlanDraft.action = ["COPY", "COPY"]) ∧
    ((build_plan "r1" "/dest" [c2File1, c2File2] c2Groups []).2.1.map
        PlanDraft.collision_suffix = [0, 0]) ∧
    ((build_plan "r1" "/dest" [c2File1, c2File2] c2Groups []).2.2 = 0) ∧
    ¬ ((build_plan "r1" "/dest" [c2File1, c2File2] c2Groups []).2.1.map
        PlanDraft.dest_path).Nodup := by decide

/-- The on-disk half of the collision policy does work: a primary whose
destination name already exists on disk (from files present before the
plan was built) gets the next free numeric suffix. -/
theorem resolve_collision_on_disk :
    resolve_collision
      ["/dest/Photos/2020/2020-01-02/IMG.jpg",
       "/dest/Photos/2020/2020-01-02/IMG (1).jpg"]
      "/dest/Photos/2020/2020-01-02" "IMG.jpg" = ("IMG (2).jpg", 2) := by decide

/-! ## Claim C5: re-scan updates only descriptive fields, never the
fingerprint; an unchanged tree upserted twice is a no-op -/

theorem frozenEq_refl (e : FileRecord) : frozenEq e e := ⟨rfl, rfl, rfl, rfl, rfl, rfl⟩

theorem frozenEq_trans {a b c : FileRecord} (h1 : frozenEq a b) (h2 : frozenEq b c) :
    frozenEq a c := by
  rcases h1 with ⟨x1, x2, x3, x4, x5, x6⟩
  rcases h2 with ⟨y1, y2, y3, y4, y5, y6⟩
  exact ⟨y1.trans x1, y2.trans x2, y3.trans x3, y4.trans x4, y5.trans x5, y6.trans x6⟩

theorem frozenEq_applyScanUpdate (e : FileRecord) (r : ScanRow) :
    frozenEq e (applyScanUpdate e r) := ⟨rfl, rfl, rfl, rfl, rfl, rfl⟩

theorem descrEq_applyScanUpdate (e : FileRecord) (r : ScanRow) :
    descrEq (applyScanUpdate e r) r :=
  ⟨rfl, rfl, rfl, rfl, rfl, rfl, rfl, rfl, rfl, rfl⟩

theorem descrEq_mkFileRecord (fid : Nat) (run : String) (r : ScanRow) :
    descrEq (mkFileRecord fid run r) r :=
  ⟨rfl, rfl, rfl, rfl, rfl, rfl, rfl, rfl, rfl, rfl⟩

theorem applyScanUpdate_of_descrEq (e : FileRecord) (r : ScanRow) (h : descrEq e r) :
    applyScanUpdate e r = e := by
  rcases h with ⟨h1, h2, h3, h4, h5, h6, h7, h8, h9, h10⟩
  unfold applyScanUpdate
  rw [← h1, ← h2, ← h3, ← h4, ← h5, ← h6, ← h7, ← h8, ← h9, ← h10]

theorem descrEq_of_sameScan {e : FileRecord} {r r' : ScanRow}
    (hs : sameScan r r') (h : descrEq e r) : descrEq e r' := by
  rcases hs with ⟨s1, s2, s3, s4, s5, s6, s7, s8, s9, s10, s11⟩
  rcases h with ⟨h1, h2, h3, h4, h5, h6, h7, h8, h9, h10⟩
  exact ⟨h1.trans s2.symm, h2.trans s3.symm, h3.trans s4.symm, h4.trans s5.symm,
    h5.trans s6.symm, h6.trans s7.symm, h7.trans s8.symm, h8.trans s9.symm,
    h9.trans s10.symm, h10.trans s11.symm⟩

theorem upsertOne_frozen (run : String) (st : List FileRecord × Nat) (r : ScanRow)
    (i : Nat) (h : i < st.1.length) :
    ∃ h2 : i < (upsertOne run st r).1.length,
      frozenEq (st.1.get ⟨i, h⟩) ((upsertOne run st r).1.get ⟨i, h2⟩) := by
  unfold upsertOne
  by_cases hc : st.1.any (fun e => decide (e.run_id = run ∧ e.source_path = r.source_path)) = true
  · rw [if_pos hc]
    refine ⟨by simpa using h, ?_⟩
    rw [List.get_map]
    split
    · exact frozenEq_applyScanUpdate _ r
    · exact frozenEq_refl _
  · rw [if_neg hc]
    have h2 : i < (st.1 ++ [mkFileRecord st.2 run r]).length := by
      rw [List.length_append]
      omega
    refine ⟨h2, ?_⟩
    rw [List.get_append _ h]
    exact frozenEq_refl _

theorem upsert_files_frozen (run : String) :
    ∀ (rows : List ScanRow) (st : List FileRecord × Nat) (i : Nat)
      (h : i < st.1.length),
      ∃ h2 : i < (upsert_files run rows st).1.length,
        frozenEq (st.1.get ⟨i, h⟩) ((upsert_files run rows st).1.get ⟨i, h2⟩) := by
  intro rows
  induction rows with
  | nil => intro st i h; exact ⟨h, frozenEq_refl _⟩
  | cons r rest ih =>
    intro st i h
    rcases upsertOne_frozen run st r i h with ⟨h1, hf1⟩
    rcases ih (upsertOne run st r) i h1 with ⟨h2, hf2⟩
    exact ⟨h2, frozenEq_trans hf1 hf2⟩

theorem upsertOne_key_state (run : String) (st : List FileRecord × Nat) (r : ScanRow) :
    (∃ e ∈ (upsertOne run st r).1, e.run_id = run ∧ e.source_path = r.source_path) ∧
    (∀ e ∈ (upsertOne run st r).1, e.run_id = run ∧ e.source_path = r.source_path →
      descrEq e r) := by
  unfold upsertOne
  by_cases hc : st.1.any (fun e => decide (e.run_id = run ∧ e.source_path = r.source_path)) = true
  · rw [if_pos hc]
    constructor
    · rcases List.any_eq_true.mp hc with ⟨e0, he0, hk0⟩
      have hk := of_decide_eq_true hk0
      refine ⟨applyScanUpdate e0 r, List.mem_map.mpr ⟨e0, he0, by rw [if_pos hk]⟩, hk.1, hk.2⟩
    · intro e he hk
      rcases List.mem_map.mp he with ⟨e0, he0, he0e⟩
      by_cases hk0 : e0.run_id = run ∧ e0.source_path = r.source_path
      · rw [← he0e, if_pos hk0]
        exact descrEq_applyScanUpdate e0 r
      · rw [← he0e, if_neg hk0] at hk
        exact absurd hk hk0
  · rw [if_neg hc]
    constructor
    · exact ⟨mkFileRecord st.2 run r,
        List.mem_append_right _ (List.mem_singleton.mpr rfl), rfl, rfl⟩
    · intro e he hk
      rcases List.mem_append.mp he with hold | hnew
      · have hcf : st.1.any
            (fun e => decide (e.run_id = run ∧ e.source_path = r.source_path)) = false := by
          simpa using hc
        exact absurd (decide_eq_true hk) (List.any_eq_false.mp hcf e hold)
      · rw [List.mem_singleton.mp hnew]
        exact descrEq_mkFileRecord st.2 run r

theorem upsertOne_key_other (run : String) (r : ScanRow) (st : List FileRecord × Nat)
    (r2 : ScanRow) (hne : r2.source_path ≠ r.source_path) :
    ((∃ e ∈ st.1, e.run_id = run ∧ e.source_path = r.source_path) →
      ∃ e ∈ (upsertOne run st r2).1, e.run_id = run ∧ e.source_path = r.source_path) ∧
    ((∀ e ∈ st.1, e.run_id = run ∧ e.source_path = r.source_path → descrEq e r) →
      ∀ e ∈ (upsertOne run st r2).1, e.run_id = run ∧ e.source_path = r.source_path →
        descrEq e r) := by
  unfold upsertOne
  by_cases hc : st.1.any (fun e => decide (e.run_id = run ∧ e.source_path = r2.source_path)) = true
  · rw [if_pos hc]
    constructor
    · rintro ⟨e0, he0, hk⟩
      refine ⟨e0, List.mem_map.mpr ⟨e0, he0, ?_⟩, hk⟩
      rw [if_neg]
      intro hk2
      exact hne (hk2.2.symm.trans hk.2)
    · intro hall e he hk
      rcases List.mem_map.mp he with ⟨e0, he0, he0e⟩
      by_cases hk0 : e0.run_id = run ∧ e0.source_path = r2.source_path
      · rw [← he0e, if_pos hk0] at hk
        exact absurd hk.2 (fun hh => hne (hk0.2.symm.trans hh))
      · rw [← he0e, if_neg hk0] at hk ⊢
        exact hall e0 he0 hk
  · rw [if_neg hc]
    constructor
    · rintro ⟨e0, he0, hk⟩
      exact ⟨e0, List.mem_append_left _ he0, hk⟩
    · intro hall e he hk
      rcases List.mem_append.mp he with hold | hnew
      · exact hall e hold hk
      · rw [List.mem_singleton.mp hnew] at hk
        exact absurd hk.2 hne

theorem upsert_files_key_other (run : String) (r : ScanRow) :
    ∀ (rows2 : List ScanRow) (st : List FileRecord × Nat),
      (∀ r2 ∈ rows2, r2.source_path ≠ r.source_path) →
      (∃ e ∈ st.1, e.run_id = run ∧ e.source_path = r.source_path) →
      (∀ e ∈ st.1, e.run_id = run ∧ e.source_path = r.source_path → descrEq e r) →
      (∃ e ∈ (upsert_files run rows2 st).1,
        e.run_id = run ∧ e.source_path = r.source_path) ∧
      (∀ e ∈ (upsert_files run rows2 st).1,
        e.run_id = run ∧ e.source_path = r.source_path → descrEq e r) := by
  intro rows2
  induction rows2 with
  | nil => intro st _ hex hall; exact ⟨hex, hall⟩
  | cons r2 rest ih =>
    intro st hne hex hall
    have h2 := upsertOne_key_other run r st r2
      (hne r2 (List.mem_cons_self r2 rest))
    exact ih (upsertOne run st r2) (fun q hq => hne q (List.mem_cons_of_mem _ hq))
      (h2.1 hex) (h2.2 hall)

theorem upsert_files_establishes (run : String) :
    ∀ (rows : List ScanRow) (st : List FileRecord × Nat),
      (rows.map ScanRow.source_path).Nodup →
      ∀ r ∈ rows,
        (∃ e ∈ (upsert_files run rows st).1,
          e.run_id = run ∧ e.source_path = r.source_path) ∧
        (∀ e ∈ (upsert_files run rows st).1,
          e.run_id = run ∧ e.source_path = r.source_path → descrEq e r) := by
  intro rows
  induction rows with
  | nil => intro st _ r hr; cases hr
  | cons r0 rest ih =>
    intro st hnd r hr
    rw [List.map_cons, List.nodup_cons] at hnd
    rcases hnd with ⟨h0notin, hndrest⟩
    rcases List.mem_cons.mp hr with heq | htail
    · subst heq
      have hkey := upsertOne_key_state run st r
      refine upsert_files_key_other run r rest (upsertOne run st r) ?_ hkey.1 hkey.2
      intro r2 hr2 hsp
      exact h0notin (hsp ▸ List.mem_map_of_mem _ hr2)
    · exact ih (upsertOne run st r0) hndrest r htail

theorem upsertOne_noop (run : String) (st : List FileRecord × Nat) (r : ScanRow)
    (hex : ∃ e ∈ st.1, e.run_id = run ∧ e.source_path = r.source_path)
    (hfix : ∀ e ∈ st.1, e.run_id = run ∧ e.source_path = r.source_path →
      applyScanUpdate e r = e) :
    upsertOne run st r = st := by
  unfold upsertOne
  rcases hex with ⟨e0, he0, hk0⟩
  have hc : st.1.any (fun e => decide (e.run_id = run ∧ e.source_path = r.source_path)) = true :=
    List.any_eq_true.mpr ⟨e0, he0, decide_eq_true hk0⟩
  rw [if_pos hc]
  have hmap : st.1.map (fun e =>
      if e.run_id = run ∧ e.source_path = r.source_path then applyScanUpdate e r else e) =
      st.1.map id := by
    refine List.map_congr_left ?_
    intro e he
    by_cases hk : e.run_id = run ∧ e.source_path = r.source_path
    · rw [if_pos hk]
      exact hfix e he hk
    · rw [if_neg hk]
      rfl
  rw [hmap, List.map_id]

theorem upsert_files_noop (run : String) :
    ∀ (rows2 : List ScanRow) (st : List FileRecord × Nat),
      (∀ r2 ∈ rows2,
        (∃ e ∈ st.1, e.run_id = run ∧ e.source_path = r2.source_path) ∧
        (∀ e ∈ st.1, e.run_id = run ∧ e.source_path = r2.source_path →
          applyScanUpdate e r2 = e)) →
      upsert_files run rows2 st = st := by
  intro rows2
  induction rows2 with
  | nil => intro st _; rfl
  | cons r2 rest ih =>
    intro st hall
    have h0 := hall r2 (List.mem_cons_self r2 rest)
    have hstep : upsertOne run st r2 = st := upsertOne_noop run st r2 h0.1 h0.2
    show upsert_files run rest (upsertOne run st r2) = st
    rw [hstep]
    exact ih st (fun q hq => hall q (List.mem_cons_of_mem _ hq))

/-- C5: `upsert_files` on an existing `(run, source path)` (1) never
changes a row's primary key, conflict key, source root, fingerprint or
creation time — in particular an existing non-null fingerprint is never
cleared, and only the descriptive columns can change; and (2) upserting
the rows of an unchanged tree a second time (same stat- and
metadata-derived fields; `created_at`, `source_root` and `sha256` of the
incoming rows are irrelevant to the conflict clause) is a no-op, so
scanning an unchanged tree twice yields the same FileRecords. -/
theorem upsert_files_rescan_spec (run : String) (rows rows2 : List ScanRow)
    (files : List FileRecord) (nid : Nat)
    (hkeys : (rows.map ScanRow.source_path).Nodup)
    (hsame : List.Forall₂ sameScan rows rows2) :
    (∀ i (h : i < files.length),
      ∃ h2 : i < (upsert_files run rows (files, nid)).1.length,
        frozenEq (files.get ⟨i, h⟩)
          ((upsert_files run rows (files, nid)).1.get ⟨i, h2⟩)) ∧
    upsert_files run rows2 (upsert_files run rows (files, nid)) =
      upsert_files run rows (files, nid) := by
  constructor
  · intro i h
    exact upsert_files_frozen run rows (files, nid) i h
  · refine upsert_files_noop run rows2 _ ?_
    intro r2 hr2
    rcases List.forall₂_iff_get.mp hsame with ⟨hlen, hget⟩
    rcases List.mem_iff_get.mp hr2 with ⟨⟨j, hj⟩, hjr⟩
    have hj1 : j < rows.length := by omega
    have hs : sameScan (rows.get ⟨j, hj1⟩) r2 := by
      have := hget j hj1 (by omega)
      rw [← hjr]
      exact this
    have hest := upsert_files_establishes run rows (files, nid) hkeys
      (rows.get ⟨j, hj1⟩) (List.get_mem rows j hj1)
    have hsp : r2.source_path = (rows.get ⟨j, hj1⟩).source_path := hs.1
    constructor
    · rcases hest.1 with ⟨e, he, hk⟩
      exact ⟨e, he, hk.1, hk.2.trans hsp.symm⟩
    · intro e he hk
      have hd : descrEq e (rows.get ⟨j, hj1⟩) :=
        hest.2 e he ⟨hk.1, hk.2.trans hsp⟩
      exact applyScanUpdate_of_descrEq e r2 (descrEq_of_sameScan hs hd)

def c5Files : List FileRecord := [sampleFile 9 "r1" "/src/a.jpg" (some "zz")]

def c5Row : ScanRow := sampleRow "/src/a.jpg" 20480 "t0"

def c5Row2 : ScanRow := sampleRow "/src/a.jpg" 20480 "t9"

theorem upsert_files_rescan_spec_witness :
    (([c5Row].map ScanRow.source_path).Nodup ∧
      List.Forall₂ sameScan [c5Row] [c5Row2]) ∧
    (upsert_files "r1" [c5Row2] (upsert_files "r1" [c5Row] (c5Files, 10)) =
      upsert_files "r1" [c5Row] (c5Files, 10)) ∧
    (∃ h2 : 0 < (upsert_files "r1" [c5Row] (c5Files, 10)).1.length,
      frozenEq (c5Files.get ⟨0, by decide⟩)
        ((upsert_files "r1" [c5Row] (c5Files, 10)).1.get ⟨0, h2⟩)) := by
  have hsame : List.Forall₂ sameScan [c5Row] [c5Row2] :=
    List.Forall₂.cons ⟨rfl, rfl, rfl, rfl, rfl, rfl, rfl, rfl, rfl, rfl, rfl⟩
      List.Forall₂.nil
  have h := upsert_files_rescan_spec "r1" [c5Row] [c5Row2] c5Files 10 (by decide) hsame
  exact ⟨⟨by decide, hsame⟩, h.2, h.1 0 (by decide)⟩

/-! ## Claim C9: scanner per-file failure handling -/

theorem scanGo_index_irrel (run source_root : String) (cfg : ScanConfig)
    (env : String → PathEnv) (stop : Nat → Bool) (t : String)
    (hstop : ∀ n, stop n = false) :
    ∀ (paths : List String) (i j : Nat) (buffer : List ScanRow)
      (st : List FileRecord × Nat) (errors : List ErrorRecord),
      scanGo run source_root cfg env stop t paths i buffer st errors =
        scanGo run source_root cfg env stop t paths j buffer st errors := by
  intro paths
  induction paths with
  | nil => intro i j buffer st errors; rfl
  | cons p rest ih =>
    intro i j buffer st errors
    rw [scanGo, scanGo, if_neg (by simp [hstop]), if_neg (by simp [hstop])]
    cases hsf : scanFile source_root cfg env t p with
    | skip => exact ih _ _ _ _ _
    | scanError estr => exact ih _ _ _ _ _
    | accept row =>
      dsimp only
      by_cases hb : 500 ≤ (buffer ++ [row]).length
      · rw [if_pos hb, if_pos hb]
        exact ih _ _ _ _ _
      · rw [if_neg hb, if_neg hb]
        exact ih _ _ _ _ _

theorem scanFile_stat_error (source_root : String) (cfg : ScanConfig)
    (env : String → PathEnv) (t : String) (p : String) (se : StatErr)
    (hstat : (env p).stat = .error se) :
    scanFile source_root cfg env t p = .skip := by
  unfold scanFile
  rw [hstat]

theorem scanFile_mtime_error (source_root : String) (cfg : ScanConfig)
    (env : String → PathEnv) (t : String) (p : String) (sz : Nat) (estr : String)
    (hstat : (env p).stat = .ok sz) (hsz : ¬ sz < cfg.min_file_size)
    (hexc : strLower (splitext p).2 ∉ excludedExts)
    (hph : ¬ (classify_media (strLower (splitext p).2) = "PHOTO" ∧ ¬ cfg.include_photos))
    (hvd : ¬ (classify_media (strLower (splitext p).2) = "VIDEO" ∧ ¬ cfg.include_videos))
    (hrw : ¬ (classify_media (strLower (splitext p).2) = "RAW" ∧ ¬ cfg.include_raw))
    (hot : ¬ (classify_media (strLower (splitext p).2) = "OTHER" ∧ ¬ cfg.include_other))
    (hmt : (env p).mtime = .error estr) :
    scanFile source_root cfg env t p = .scanError estr := by
  unfold scanFile
  rw [hstat]
  dsimp only
  rw [if_neg hsz, if_neg hexc, if_neg hph, if_neg hvd, if_neg hrw, if_neg hot, hmt]

/-- C9 (amended): a file whose `os.stat` raises (disappearance, permission
error or another OS error) is handled by the dedicated `except` arms: it
is skipped — no FileRecord, and NO ScanError row, only the skip callback —
and scanning continues on the remaining files unchanged; a per-file
exception that reaches the outer handler (for example `mtime_iso` failing
after a successful stat) is recorded as exactly one SCAN ErrorRecord, the
file is skipped without inserting a FileRecord, and scanning continues. -/
theorem scan_skip_and_error_spec (run source_root : String) (cfg : ScanConfig)
    (env : String → PathEnv) (stop : Nat → Bool) (t : String)
    (hstop : ∀ n, stop n = false) :
    (∀ p se, (env p).stat = .error se → scanFile source_root cfg env t p = .skip) ∧
    (∀ p rest st errors, scanFile source_root cfg env t p = .skip →
      scan run source_root cfg env stop t (p :: rest) st errors =
        scan run source_root cfg env stop t rest st errors) ∧
    (∀ p rest st errors estr, scanFile source_root cfg env t p = .scanError estr →
      scan run source_root cfg env stop t (p :: rest) st errors =
        scan run source_root cfg env stop t rest st
          (errorAdd run "SCAN" estr none (some p) none none t errors)) := by
  refine ⟨scanFile_stat_error source_root cfg env t, ?_, ?_⟩
  · intro p rest st errors hskip
    show scanGo run source_root cfg env stop t (p :: rest) 0 [] st errors = _
    rw [scanGo, if_neg (by simp [hstop]), hskip]
    exact scanGo_index_irrel run source_root cfg env stop t hstop rest 1 0 [] st errors
  · intro p rest st errors estr herr
    show scanGo run source_root cfg env stop t (p :: rest) 0 [] st errors = _
    rw [scanGo, if_neg (by simp [hstop]), herr]
    exact scanGo_index_irrel run source_root cfg env stop t hstop rest 1 0 [] st _

def c9Cfg : ScanConfig :=
  { min_file_size := 10240, include_photos := true, include_videos := true,
    include_raw := true, include_other := false }

def c9Env : String → PathEnv := fun _ =>
  { stat := .error .notFound, mtime := .ok "2020-01-02T00:00:00",
    exifDt := none, videoDt := .ok none }

def c9EnvB : String → PathEnv := fun _ =>
  { stat := .ok 20480, mtime := .error "OSError: boom",
    exifDt := none, videoDt := .ok none }

/-- C9 (counterexample to the claim as stated): scanning a single file
whose `os.stat` raises FileNotFoundError inserts no FileRecord — but also
records NO ScanError: the error log stays empty, because the dedicated
`except FileNotFoundError` arm only fires the skip callback and
`continue`s, never calling the error repository.  The claim says such a
failure is "recorded as a ScanError in the error log". -/
theorem scan_stat_failure_not_logged :
    (c9Env "/s/a.jpg").stat = .error .notFound ∧
    scan "r1" "/s" c9Cfg c9Env (fun _ => false) "t0" ["/s/a.jpg"] ([], 1) [] =
      (([], 1), []) :=
  ⟨rfl, by decide⟩

theorem scan_skip_and_error_spec_witness :
    ((c9Env "/s/a.jpg").stat = .error .notFound ∧
      scanFile "/s" c9Cfg c9Env "t0" "/s/a.jpg" = .skip ∧
      scanFile "/s" c9Cfg c9EnvB "t0" "/s/a.jpg" = .scanError "OSError: boom") ∧
    (scan "r1" "/s" c9Cfg c9Env (fun _ => false) "t0" ["/s/a.jpg"] ([], 1) [] =
      scan "r1" "/s" c9Cfg c9Env (fun _ => false) "t0" [] ([], 1) []) ∧
    (scan "r1" "/s" c9Cfg c9EnvB (fun _ => false) "t0" ["/s/a.jpg"] ([], 1) [] =
      scan "r1" "/s" c9Cfg c9EnvB (fun _ => false) "t0" [] ([], 1)
        (errorAdd "r1" "SCAN" "OSError: boom" none (some "/s/a.jpg") none none "t0" [])) := by
  have hA := scan_skip_and_error_spec "r1" "/s" c9Cfg c9Env (fun _ => false) "t0"
    (fun _ => rfl)
  have hB := scan_skip_and_error_spec "r1" "/s" c9Cfg c9EnvB (fun _ => false) "t0"
    (fun _ => rfl)
  have hskip : scanFile "/s" c9Cfg c9Env "t0" "/s/a.jpg" = .skip :=
    hA.1 "/s/a.jpg" .notFound rfl
  have herr : scanFile "/s" c9Cfg c9EnvB "t0" "/s/a.jpg" = .scanError "OSError: boom" :=
    scanFile_mtime_error "/s" c9Cfg c9EnvB "t0" "/s/a.jpg" 20480 "OSError: boom" rfl
      (by decide) (by decide) (by decide) (by decide) (by decide) (by decide) rfl
  exact ⟨⟨rfl, hskip, herr⟩,
    hA.2.1 "/s/a.jpg" [] ([], 1) [] hskip,
    hB.2.2 "/s/a.jpg" [] ([], 1) [] "OSError: boom" herr⟩

end MediaOrg
